import Mathlib

/-!
# oqpi `parallel_group`: a verification development

Shallow embedding of `include/oqpi/scheduling/parallel_group.hpp`.

* Part 1 is a sequential (big-step) embedding: every member function of
  `parallel_group` is a Lean function on the record `parallel_group`, which
  holds the four data members of the class together with the part of the
  environment the member functions talk to (the grab flag of the group's own
  `task_base`, the dispatcher's pending handles and a trace of the observable
  calls).  The dispatcher is a parameter of the functions that use it.
* Part 2 is an interleaving (small-step) embedding of the same member
  functions, one atomic access to shared memory per step, used for the
  properties that quantify over every interleaving of threads.

Conventions.  `std::atomic<int>` counters are `Int` (`activeTasksCount_`,
`maxSimultaneousTasks_`) or `Nat` (`currentTaskIndex_`, which starts at 1 and
is only ever changed by `fetch_add(1)`); the counters are taken to stay inside
the range of `int`.  A result `none` means that the call has no defined result:
an element of `tasks_` was indexed out of range, a precondition of a task
handle was broken, the thread blocks for ever, or a loop ran out of its
iteration budget.
-/

namespace oqpi

/-! ## Part 1: data model -/

/-- Modelled from the spec: the execution state of a task handle (`task_handle`
is declared in `task_handle.hpp`, which is not part of the sources at hand).
The state only advances `notGrabbed → grabbed → done`. -/
inductive GrabState where
  | notGrabbed
  | grabbed
  | done
  deriving DecidableEq, Repr

/-- Modelled from the spec: a task handle, as the group sees it: the identity
of the wrapped task and its execution state. -/
structure task_handle where
  uid : Nat
  state : GrabState
  deriving DecidableEq, Repr

/-- Observable calls made by the member functions, in the order they happen. -/
inductive Event where
  /-- `oqpi_ensure` / `oqpi_ensuref` evaluated to false. -/
  | ensureFailed
  /-- `oqpi_check` evaluated to false. -/
  | checkFailed
  /-- `currentTaskIndex_.fetch_add(1)` returned `i`. -/
  | claimed (i : Nat)
  /-- `dispatcher_.add(tasks_[i])`. -/
  | handed (i : Nat)
  /-- the body of the task at `tasks_[i]` ran inside `execute()`. -/
  | ran (i : Nat)
  /-- `tasks_[i].executeSingleThreaded()` was called. -/
  | ranSingleThreaded (i : Nat)
  /-- `notifyGroupDone()`. -/
  | notified
  /-- `wait()` returned. -/
  | waited
  deriving DecidableEq, Repr

/-- The data members of `parallel_group` (first four fields) and the
environment of its member functions. -/
structure parallel_group where
  /-- `std::vector<task_handle> tasks_` -/
  tasks_ : List task_handle
  /-- `std::atomic<int> activeTasksCount_` -/
  activeTasksCount_ : Int
  /-- `const int maxSimultaneousTasks_` -/
  maxSimultaneousTasks_ : Int
  /-- `std::atomic<int> currentTaskIndex_` -/
  currentTaskIndex_ : Nat
  /-- grab flag of the group's own `task_base` -/
  groupGrabbed : Bool
  /-- handles the dispatcher holds and has not yet popped (indices into `tasks_`) -/
  queue : List Nat
  /-- observable calls so far -/
  trace : List Event
  deriving DecidableEq, Repr

/-- The dispatcher's `add(handle)`, given the index of the handle in `tasks_`. -/
abbrev Dispatcher := Nat → parallel_group → Option parallel_group

/-- Modelled from the spec: `task_handle::isGrabbed()`. -/
def isGrabbed (h : task_handle) : Bool := h.state == GrabState.grabbed

/-- Modelled from the spec: `task_handle::isDone()`. -/
def isDone (h : task_handle) : Bool := h.state == GrabState.done

/-- Modelled from the spec: `task_handle::tryGrab()`, a single compare-and-swap
`notGrabbed → grabbed`; the result tells whether this call made the transition. -/
def tryGrab (h : task_handle) : Bool × task_handle :=
  if h.state = GrabState.notGrabbed then (true, { h with state := GrabState.grabbed })
  else (false, h)

/-- `tasks_[i].tryGrab()` on the group. -/
def tryGrabAt (i : Nat) (g : parallel_group) : Option (Bool × parallel_group) :=
  match g.tasks_[i]? with
  | none => none
  | some h => some ((tryGrab h).1, { g with tasks_ := g.tasks_.set i (tryGrab h).2 })

/-- Modelled from the spec: `task_base::tryGrab()` on the group itself. -/
def tryGrabGroup (g : parallel_group) : Bool × parallel_group :=
  if g.groupGrabbed then (false, g) else (true, { g with groupGrabbed := true })

/-- Modelled from the spec: `task_group::notifyGroupDone()`. -/
def notifyGroupDone (g : parallel_group) : parallel_group :=
  { g with trace := g.trace ++ [Event.notified] }

/-- Modelled from the spec: `task_group::wait()` blocks until `notifyGroupDone`
has fired; in a sequential run a wait that would block never returns. -/
def wait (g : parallel_group) : Option parallel_group :=
  if Event.notified ∈ g.trace then some { g with trace := g.trace ++ [Event.waited] } else none

/-! ## Part 1: member functions -/

/-- Constructor `parallel_group(sc, name, priority, nbTasks, maxSimultaneousTasks)`;
`nbTasks` is only a capacity hint for `tasks_.reserve`. -/
def make_parallel_group (maxSimultaneousTasks : Int) : parallel_group :=
  { tasks_ := [], activeTasksCount_ := 0, maxSimultaneousTasks_ := maxSimultaneousTasks,
    currentTaskIndex_ := 1, groupGrabbed := false, queue := [], trace := [] }

/-- `parallel_group::empty`. -/
def empty (g : parallel_group) : Bool := g.tasks_.isEmpty

/-- `parallel_group::addTaskImpl`. -/
def addTaskImpl (hTask : task_handle) (g : parallel_group) : parallel_group :=
  { g with tasks_ := g.tasks_ ++ [hTask], activeTasksCount_ := g.activeTasksCount_ + 1 }

/-- The `while` loop of `oneTaskDone` (lines 127-134); `fuel` bounds the
number of `fetch_add`s. -/
def refillLoop (add : Dispatcher) (taskCount : Nat) : Nat → parallel_group → Option parallel_group
  | 0, _ => none
  | fuel + 1, g =>
    let i := g.currentTaskIndex_
    let g1 := { g with currentTaskIndex_ := i + 1, trace := g.trace ++ [Event.claimed i] }
    if i < taskCount then
      match g1.tasks_[i]? with
      | none => none
      | some h =>
        if !isGrabbed h && !isDone h then add i g1
        else refillLoop add taskCount fuel g1
    else some g1

/-- `parallel_group::oneTaskDone`. -/
def oneTaskDone (add : Dispatcher) (g : parallel_group) : Option parallel_group :=
  let previousTaskCount := g.activeTasksCount_
  let g1 := { g with activeTasksCount_ := previousTaskCount - 1 }
  if previousTaskCount = 1 then some (notifyGroupDone g1)
  else if g1.maxSimultaneousTasks_ > 0 then
    refillLoop add g1.tasks_.length (g1.tasks_.length + 1) g1
  else some g1

/-- Modelled from the spec: `tasks_[i].execute()`: requires the handle to be
grabbed, runs the wrapped task, moves the handle to `done` and reports the
completion to the owning group. -/
def execute (add : Dispatcher) (i : Nat) (g : parallel_group) : Option parallel_group :=
  match g.tasks_[i]? with
  | none => none
  | some h =>
    if h.state = GrabState.grabbed then
      oneTaskDone add
        { g with tasks_ := g.tasks_.set i { h with state := GrabState.done },
                 trace := g.trace ++ [Event.ran i] }
    else none

/-- `if (tasks_[i].tryGrab()) tasks_[i].execute();` -/
def grabAndExecute (add : Dispatcher) (i : Nat) (g : parallel_group) : Option parallel_group :=
  match tryGrabAt i g with
  | none => none
  | some (true, g1) => execute add i g1
  | some (false, g1) => some g1

/-- The `while` loop of `executeImpl` (lines 96-106); `scheduledTasks` is the
local counter, `fuel` bounds the number of `fetch_add`s. -/
def distributeLoop (add : Dispatcher) (taskCount : Nat) :
    Nat → Int → parallel_group → Option parallel_group
  | 0, _, _ => none
  | fuel + 1, scheduledTasks, g =>
    let i := g.currentTaskIndex_
    let g1 := { g with currentTaskIndex_ := i + 1, trace := g.trace ++ [Event.claimed i] }
    if i < taskCount then
      match g1.tasks_[i]? with
      | none => none
      | some h =>
        if !isGrabbed h && !isDone h then
          match add i g1 with
          | none => none
          | some g2 =>
            if g2.maxSimultaneousTasks_ > 0 then
              if scheduledTasks + 1 ≥ g2.maxSimultaneousTasks_ - 1 then some g2
              else distributeLoop add taskCount fuel (scheduledTasks + 1) g2
            else distributeLoop add taskCount fuel scheduledTasks g2
        else distributeLoop add taskCount fuel scheduledTasks g1
    else some g1

/-- `parallel_group::executeImpl`. -/
def executeImpl (add : Dispatcher) (g : parallel_group) : Option parallel_group :=
  let taskCount := g.tasks_.length
  if taskCount > 0 then
    match distributeLoop add taskCount (taskCount + 1) 0 g with
    | none => none
    | some g1 => grabAndExecute add 0 g1
  else some { g with trace := g.trace ++ [Event.ensureFailed] }

/-- The range-`for` of `activeWait` (lines 68-74) from index `j` on, `n`
elements left. -/
def activeWaitLoop (add : Dispatcher) : Nat → Nat → parallel_group → Option parallel_group
  | 0, _, g => some g
  | n + 1, j, g =>
    match grabAndExecute add j g with
    | none => none
    | some g1 => activeWaitLoop add n (j + 1) g1

/-- `parallel_group::activeWait`. -/
def activeWait (add : Dispatcher) (g : parallel_group) : Option parallel_group :=
  match activeWaitLoop add g.tasks_.length 0 g with
  | none => none
  | some g1 => wait g1

/-- The `for` loop of `executeSingleThreadedImpl` (lines 56-59). Modelled from
the spec: `executeSingleThreaded()` runs the task without the grab and queue
machinery; the call is recorded. -/
def singleThreadedLoop : Nat → Nat → parallel_group → Option parallel_group
  | 0, _, g => some g
  | n + 1, i, g =>
    match g.tasks_[i]? with
    | none => none
    | some _ => singleThreadedLoop n (i + 1)
        { g with trace := g.trace ++ [Event.ranSingleThreaded i] }

/-- `parallel_group::executeSingleThreadedImpl`. -/
def executeSingleThreadedImpl (g : parallel_group) : Option parallel_group :=
  match tryGrabGroup g with
  | (true, g1) =>
    let taskCount := g1.tasks_.length
    let r :=
      if taskCount > 0 then
        let g2 :=
          if (taskCount : Int) = g1.activeTasksCount_ then g1
          else { g1 with trace := g1.trace ++ [Event.checkFailed] }
        singleThreadedLoop taskCount 0 g2
      else some { g1 with trace := g1.trace ++ [Event.ensureFailed] }
    match r with
    | none => none
    | some g3 => some { g3 with tasks_ := [] }
  | (false, g1) => some g1

/-! ## Part 1: dispatchers -/

/-- A dispatcher whose `add` only queues the handle. -/
def queueingAdd : Dispatcher :=
  fun i g => some { g with queue := g.queue ++ [i], trace := g.trace ++ [Event.handed i] }

/-- A dispatcher whose `add` runs the handle at once on the calling thread
(grabbing it first); `depth` bounds the nesting of such inline runs. -/
def immediateAdd : Nat → Dispatcher
  | 0 => fun _ _ => none
  | depth + 1 => fun i g =>
    grabAndExecute (immediateAdd depth) i { g with trace := g.trace ++ [Event.handed i] }

/-- A worker of the queueing dispatcher: pops the oldest pending handle and
executes it if its `tryGrab` succeeds, until the queue is empty; `fuel` bounds
the number of pops. -/
def workerDrain : Nat → parallel_group → Option parallel_group
  | 0, g => if g.queue = [] then some g else none
  | fuel + 1, g =>
    match g.queue with
    | [] => some g
    | i :: rest =>
      match grabAndExecute queueingAdd i { g with queue := rest } with
      | none => none
      | some g1 => workerDrain fuel g1

/-- Adds the handles of `hs` in order. -/
def addTasks (hs : List task_handle) (g : parallel_group) : parallel_group :=
  hs.foldl (fun acc h => addTaskImpl h acc) g

/-- Number of times the body of the task at index `i` has run. -/
def runCount (i : Nat) (g : parallel_group) : Nat := g.trace.count (Event.ran i)

/-- Number of calls of `notifyGroupDone`. -/
def notifyCount (g : parallel_group) : Nat := g.trace.count Event.notified

/-- The index of a `handed` event. -/
def handedIndex : Event → Option Nat
  | Event.handed i => some i
  | _ => none

/-- Indices handed to the dispatcher, in order. -/
def handedLog (g : parallel_group) : List Nat := g.trace.filterMap handedIndex

/-! ## Part 1: auxiliary definitions used in the statements -/

/-- Iterated `oneTaskDone`: `n` completions reported one after the other. -/
def oneTaskDoneTimes (add : Dispatcher) : Nat → parallel_group → Option parallel_group
  | 0, g => some g
  | n + 1, g =>
    match oneTaskDone add g with
    | none => none
    | some g1 => oneTaskDoneTimes add n g1

/-- What a refill leaves alone: everything but the cursor, the queue and the
`claimed` / `handed` part of the trace. -/
def RefillFrame (g g' : parallel_group) : Prop :=
  g'.tasks_ = g.tasks_ ∧ g'.activeTasksCount_ = g.activeTasksCount_ ∧
  g'.maxSimultaneousTasks_ = g.maxSimultaneousTasks_ ∧
  g'.groupGrabbed = g.groupGrabbed ∧
  g.currentTaskIndex_ ≤ g'.currentTaskIndex_ ∧
  notifyCount g' = notifyCount g ∧ ∀ i, runCount i g' = runCount i g

/-- The handles of `hs` with the execution state of the handle at index
`i + k` replaced by `st (i + k)`. -/
def withStates (st : Nat → GrabState) : Nat → List task_handle → List task_handle
  | _, [] => []
  | k, h :: t => { h with state := st k } :: withStates st (k + 1) t

/-- Expected trace of `n` handles, from index `c` on, each claimed, handed to a
dispatcher that runs it at once, and run. -/
def inlineRuns (c : Nat) : Nat → List Event
  | 0 => []
  | n + 1 => inlineRuns c n ++ [Event.claimed (c + n), Event.handed (c + n), Event.ran (c + n)]

/-- State of Scenario A when the cursor is at `c`: the handles at `1 .. c-1`
were handed to the dispatcher and run by it. -/
def scenarioA_at (hs : List task_handle) (c : Nat) : parallel_group :=
  { tasks_ := withStates (fun i => if 1 ≤ i ∧ i < c then GrabState.done else GrabState.notGrabbed) 0 hs,
    activeTasksCount_ := (hs.length : Int) + 1 - c,
    maxSimultaneousTasks_ := 0,
    currentTaskIndex_ := c,
    groupGrabbed := false,
    queue := [],
    trace := inlineRuns 1 (c - 1) }

/-- Expected trace of `n` handles, from index `c` on, each claimed and handed
to a dispatcher that only queues. -/
def queuedHands : Nat → Nat → List Event
  | _, 0 => []
  | c, n + 1 => Event.claimed c :: Event.handed c :: queuedHands (c + 1) n

/-- One iteration of the distribution loop on a handle that is not grabbed,
with a queueing dispatcher: the state after `dispatcher_.add`. -/
def handOne (g : parallel_group) : parallel_group :=
  { g with currentTaskIndex_ := g.currentTaskIndex_ + 1,
           queue := g.queue ++ [g.currentTaskIndex_],
           trace := g.trace ++ [Event.claimed g.currentTaskIndex_,
                                Event.handed g.currentTaskIndex_] }

/-- The state after `m` handles in a row were claimed and queued. -/
def handMany (m : Nat) (g : parallel_group) : parallel_group :=
  { g with currentTaskIndex_ := g.currentTaskIndex_ + m,
           queue := g.queue ++ List.range' g.currentTaskIndex_ m,
           trace := g.trace ++ queuedHands g.currentTaskIndex_ m }

/-- State of a fresh group with cap 0 after `executeImpl` with a queueing
dispatcher: all handles but the first are queued, the first one has run. -/
def afterExecuteQueued (hs : List task_handle) : parallel_group :=
  { tasks_ := withStates (fun i => if i = 0 then GrabState.done else GrabState.notGrabbed) 0 hs,
    activeTasksCount_ := (hs.length : Int) - 1,
    maxSimultaneousTasks_ := 0,
    currentTaskIndex_ := hs.length + 1,
    groupGrabbed := false,
    queue := List.range' 1 (hs.length - 1),
    trace := queuedHands 1 (hs.length - 1) ++ [Event.claimed hs.length, Event.ran 0] ++
      (if hs.length = 1 then [Event.notified] else []) }

/-- Three fresh handles. -/
def threeHandles : List task_handle :=
  [⟨10, GrabState.notGrabbed⟩, ⟨11, GrabState.notGrabbed⟩, ⟨12, GrabState.notGrabbed⟩]

/-- Five fresh handles `T0 .. T4`. -/
def fiveHandles : List task_handle :=
  [⟨0, GrabState.notGrabbed⟩, ⟨1, GrabState.notGrabbed⟩, ⟨2, GrabState.notGrabbed⟩,
   ⟨3, GrabState.notGrabbed⟩, ⟨4, GrabState.notGrabbed⟩]

/-- Handle states in which exactly the handles below index `a` are done and
the others are not grabbed. -/
def doneBelow (a : Nat) : Nat → GrabState :=
  fun i => if i < a then GrabState.done else GrabState.notGrabbed

/-- State of a capped group, queueing dispatcher, in which the tasks below `a`
have completed and the handles below `b` have been handed out (or run). -/
def Drained (hs : List task_handle) (a b : Nat) (g : parallel_group) : Prop :=
  g.tasks_ = withStates (doneBelow a) 0 hs ∧
  g.activeTasksCount_ = (hs.length : Int) - a ∧
  0 < g.maxSimultaneousTasks_ ∧
  a ≤ b ∧ b ≤ hs.length ∧ b ≤ g.currentTaskIndex_ ∧
  (b < hs.length → g.currentTaskIndex_ = b) ∧
  (∀ i, runCount i g = if i < a then 1 else 0) ∧
  notifyCount g = if hs.length ≤ a then 1 else 0

/-- Number of handles the distribution loop of `executeImpl` hands out under a
cap `k > 0` before it breaks, when enough handles are left. -/
def initialBurst (k : Int) : Nat := max 1 (k - 1).toNat

/-- Ten fresh handles `T0 .. T9`. -/
def tenHandles : List task_handle :=
  (List.range 10).map (fun u => ⟨u, GrabState.notGrabbed⟩)

/-- The operations of a parallel group. -/
inductive GroupOp where
  | addTask (h : task_handle)
  | execute
  | taskDone
  | activeWait
  | executeSingleThreaded
  deriving DecidableEq, Repr

/-- One operation on the group, with a queueing dispatcher. -/
def applyOp : GroupOp → parallel_group → Option parallel_group
  | GroupOp.addTask h, g => some (addTaskImpl h g)
  | GroupOp.execute, g => executeImpl queueingAdd g
  | GroupOp.taskDone, g => oneTaskDone queueingAdd g
  | GroupOp.activeWait, g => activeWait queueingAdd g
  | GroupOp.executeSingleThreaded, g => executeSingleThreadedImpl g

/-- A sequence of operations, left to right. -/
def applyOps : List GroupOp → parallel_group → Option parallel_group
  | [], g => some g
  | op :: ops, g =>
    match applyOp op g with
    | none => none
    | some g1 => applyOps ops g1

/-- Number of `addTaskImpl` calls in a sequence of operations. -/
def addedIn : List GroupOp → Nat
  | [] => 0
  | GroupOp.addTask _ :: ops => addedIn ops + 1
  | _ :: ops => addedIn ops

/-- Number of tasks added and not cleared since: `held` tasks are in the group
and `grabbed` tells whether the group itself has been grabbed; the first
`executeSingleThreadedImpl` on a group that is not grabbed clears the tasks. -/
def heldAfter : List GroupOp → Nat → Bool → Nat
  | [], held, _ => held
  | GroupOp.addTask _ :: ops, held, grabbed => heldAfter ops (held + 1) grabbed
  | GroupOp.executeSingleThreaded :: ops, held, grabbed =>
    if grabbed then heldAfter ops held true else heldAfter ops 0 true
  | _ :: ops, held, grabbed => heldAfter ops held grabbed

/-- What the concurrent member functions leave alone: the length of `tasks_`
and the grab flag of the group. -/
def SameShape (g g' : parallel_group) : Prop :=
  g'.tasks_.length = g.tasks_.length ∧ g'.groupGrabbed = g.groupGrabbed

/-- A sequence of operations without `executeSingleThreadedImpl`. -/
def soloOps : List GroupOp :=
  [GroupOp.addTask ⟨7, GrabState.notGrabbed⟩, GroupOp.execute, GroupOp.activeWait]

/-- The state the operations `soloOps` lead to. -/
def soloDone : parallel_group :=
  { tasks_ := [⟨7, GrabState.done⟩], activeTasksCount_ := 0, maxSimultaneousTasks_ := 0,
    currentTaskIndex_ := 2, groupGrabbed := false, queue := [],
    trace := [Event.claimed 1, Event.ran 0, Event.notified, Event.waited] }


/-! ## Part 1: further auxiliary definitions -/

/-- The handle at index `j` of `tasks` is neither grabbed nor done (the test of
lines 98 and 129); false when there is no such handle. -/
def freeAt (tasks : List task_handle) (j : Nat) : Bool :=
  match tasks[j]? with
  | some h => !isGrabbed h && !isDone h
  | none => false

/-- Expected trace of a scan of the `m` indices from `c` on: each index is
claimed, and handed to the dispatcher when its handle is neither grabbed nor
done. -/
def scanTrace (tasks : List task_handle) : Nat → Nat → List Event
  | _, 0 => []
  | c, m + 1 =>
    (if freeAt tasks c then [Event.claimed c, Event.handed c] else [Event.claimed c]) ++
      scanTrace tasks (c + 1) m

/-- A group of five tasks in mixed states, without a cap: `T0` done, `T1`
grabbed, `T2` not grabbed, `T3` done, `T4` not grabbed; three tasks are still
active and the cursor is at 1. -/
def mixedGroup : parallel_group :=
  { tasks_ := [⟨0, GrabState.done⟩, ⟨1, GrabState.grabbed⟩, ⟨2, GrabState.notGrabbed⟩,
               ⟨3, GrabState.done⟩, ⟨4, GrabState.notGrabbed⟩],
    activeTasksCount_ := 3, maxSimultaneousTasks_ := 0, currentTaskIndex_ := 1,
    groupGrabbed := false, queue := [], trace := [] }

/-- The group `mixedGroup` under a cap of 2. -/
def mixedCapped : parallel_group := { mixedGroup with maxSimultaneousTasks_ := 2 }

/-! ## Part 2: interleaving embedding

Threads run the member functions of `parallel_group` concurrently.  A step of
the system is one atomic action of one thread: one access to an atomic
(`fetch_add`, `fetch_sub`, `tryGrab`, a read of the handle state), one call of
the dispatcher, one run of a task body, or one notification.  The dispatcher
queues the handles it is given; its workers pop a handle, try to grab it and
execute it if the grab succeeded. -/

/-- Who called `execute()` on a handle, that is where the thread goes on once
the completion has been reported: the thread that runs `executeImpl`, a
dispatcher worker, or a thread inside the loop of `activeWait` at index `j`. -/
inductive Caller where
  | trigger
  | worker
  | waiter (j : Nat)
  deriving DecidableEq, Repr

/-- Program counter of a thread: its next atomic action. -/
inductive Pc where
  /-- `executeImpl`, lines 90-91: read `tasks_.size()`, `oqpi_ensuref`. -/
  | execEnter
  /-- `executeImpl`, line 96: `currentTaskIndex_.fetch_add(1)`, `scheduledTasks = s`. -/
  | distClaim (s : Int)
  /-- `executeImpl`, line 98: `tasks_[i].isGrabbed()`. -/
  | distIsGrabbed (i : Nat) (s : Int)
  /-- `executeImpl`, line 98: `tasks_[i].isDone()`. -/
  | distIsDone (i : Nat) (s : Int)
  /-- `executeImpl`, lines 100-104: `dispatcher_.add(tasks_[i])` and the cap test. -/
  | distAdd (i : Nat) (s : Int)
  /-- `executeImpl`, line 108: `tasks_[0].tryGrab()`. -/
  | grabZero
  /-- `execute()` on `tasks_[i]`: run the wrapped task. -/
  | runBody (c : Caller) (i : Nat)
  /-- `execute()` on `tasks_[i]`: move the handle from grabbed to done. -/
  | setDone (c : Caller) (i : Nat)
  /-- `oneTaskDone`, lines 118-123: `activeTasksCount_.fetch_sub(1)` and the tests on it. -/
  | fetchSub (c : Caller)
  /-- `oneTaskDone`, line 121: `notifyGroupDone()`. -/
  | notify (c : Caller)
  /-- `oneTaskDone`, line 127: `currentTaskIndex_.fetch_add(1)`. -/
  | refillClaim (c : Caller)
  /-- `oneTaskDone`, line 129: `tasks_[i].isGrabbed()`. -/
  | refillIsGrabbed (c : Caller) (i : Nat)
  /-- `oneTaskDone`, line 129: `tasks_[i].isDone()`. -/
  | refillIsDone (c : Caller) (i : Nat)
  /-- `oneTaskDone`, lines 131-132: `dispatcher_.add(tasks_[i])`, `break`. -/
  | refillAdd (c : Caller) (i : Nat)
  /-- `activeWait`, lines 68-70: loop at index `j`, `hTask.tryGrab()`. -/
  | waitScan (j : Nat)
  /-- `activeWait`, line 76: `wait()`. -/
  | waitJoin
  /-- dispatcher worker: pop a queued handle. -/
  | workerIdle
  /-- dispatcher worker: `tryGrab()` on the popped handle `tasks_[i]`. -/
  | workerGrab (i : Nat)
  /-- the member function has returned. -/
  | finished
  deriving DecidableEq, Repr

/-- The group, its environment and the threads working on it. -/
structure System where
  group : parallel_group
  threads : List Pc
  deriving DecidableEq, Repr

/-- Where a thread goes on when `execute()` returns to its caller. -/
def Caller.resume : Caller → Pc
  | Caller.trigger => Pc.finished
  | Caller.worker => Pc.workerIdle
  | Caller.waiter j => Pc.waitScan (j + 1)

/-- `tasks_[i].tryGrab()` by a thread: on success the handle is grabbed and
the thread goes to `won`, otherwise the state is unchanged and the thread goes
to `lost`. -/
def grabStep (g : parallel_group) (i : Nat) (won lost : Pc) : parallel_group × Pc :=
  match g.tasks_[i]? with
  | none => (g, lost)
  | some h =>
    if (tryGrab h).1 then ({ g with tasks_ := g.tasks_.set i (tryGrab h).2 }, won)
    else (g, lost)

/-- One atomic action of a thread at program counter `pc` on the group `g`;
`p` is the position of the handle a worker pops from the dispatcher's queue.
The result is the new group and the new program counter of the thread. -/
def action (p : Nat) (g : parallel_group) : Pc → parallel_group × Pc
  | Pc.execEnter =>
    if g.tasks_.length > 0 then (g, Pc.distClaim 0)
    else ({ g with trace := g.trace ++ [Event.ensureFailed] }, Pc.finished)
  | Pc.distClaim s =>
    ({ g with currentTaskIndex_ := g.currentTaskIndex_ + 1,
              trace := g.trace ++ [Event.claimed g.currentTaskIndex_] },
     if g.currentTaskIndex_ < g.tasks_.length then Pc.distIsGrabbed g.currentTaskIndex_ s
     else Pc.grabZero)
  | Pc.distIsGrabbed i s =>
    match g.tasks_[i]? with
    | none => (g, Pc.distIsGrabbed i s)
    | some h => (g, if isGrabbed h then Pc.distClaim s else Pc.distIsDone i s)
  | Pc.distIsDone i s =>
    match g.tasks_[i]? with
    | none => (g, Pc.distIsDone i s)
    | some h => (g, if isDone h then Pc.distClaim s else Pc.distAdd i s)
  | Pc.distAdd i s =>
    ({ g with queue := g.queue ++ [i], trace := g.trace ++ [Event.handed i] },
     if g.maxSimultaneousTasks_ > 0 then
       if s + 1 ≥ g.maxSimultaneousTasks_ - 1 then Pc.grabZero else Pc.distClaim (s + 1)
     else Pc.distClaim s)
  | Pc.grabZero => grabStep g 0 (Pc.runBody Caller.trigger 0) Pc.finished
  | Pc.runBody c i => ({ g with trace := g.trace ++ [Event.ran i] }, Pc.setDone c i)
  | Pc.setDone c i =>
    match g.tasks_[i]? with
    | none => (g, Pc.setDone c i)
    | some h => ({ g with tasks_ := g.tasks_.set i { h with state := GrabState.done } },
                 Pc.fetchSub c)
  | Pc.fetchSub c =>
    ({ g with activeTasksCount_ := g.activeTasksCount_ - 1 },
     if g.activeTasksCount_ = 1 then Pc.notify c
     else if g.maxSimultaneousTasks_ > 0 then Pc.refillClaim c
     else c.resume)
  | Pc.notify c => (notifyGroupDone g, c.resume)
  | Pc.refillClaim c =>
    ({ g with currentTaskIndex_ := g.currentTaskIndex_ + 1,
              trace := g.trace ++ [Event.claimed g.currentTaskIndex_] },
     if g.currentTaskIndex_ < g.tasks_.length then Pc.refillIsGrabbed c g.currentTaskIndex_
     else c.resume)
  | Pc.refillIsGrabbed c i =>
    match g.tasks_[i]? with
    | none => (g, Pc.refillIsGrabbed c i)
    | some h => (g, if isGrabbed h then Pc.refillClaim c else Pc.refillIsDone c i)
  | Pc.refillIsDone c i =>
    match g.tasks_[i]? with
    | none => (g, Pc.refillIsDone c i)
    | some h => (g, if isDone h then Pc.refillClaim c else Pc.refillAdd c i)
  | Pc.refillAdd c i =>
    ({ g with queue := g.queue ++ [i], trace := g.trace ++ [Event.handed i] }, c.resume)
  | Pc.waitScan j =>
    if j < g.tasks_.length then grabStep g j (Pc.runBody (Caller.waiter j) j) (Pc.waitScan (j + 1))
    else (g, Pc.waitJoin)
  | Pc.waitJoin =>
    if Event.notified ∈ g.trace then ({ g with trace := g.trace ++ [Event.waited] }, Pc.finished)
    else (g, Pc.waitJoin)
  | Pc.workerIdle =>
    match g.queue[p]? with
    | none => (g, Pc.workerIdle)
    | some i => ({ g with queue := g.queue.eraseIdx p }, Pc.workerGrab i)
  | Pc.workerGrab i => grabStep g i (Pc.runBody Caller.worker i) Pc.workerIdle
  | Pc.finished => (g, Pc.finished)

/-- One step of the system: thread `t` does its next atomic action (nothing
happens when there is no thread `t`). -/
def step (t p : Nat) (s : System) : System :=
  match s.threads[t]? with
  | none => s
  | some pc =>
    { group := (action p s.group pc).1, threads := s.threads.set t (action p s.group pc).2 }

/-- A schedule: which thread moves, and which queued handle it pops if it is
an idle worker. -/
abbrev Schedule := List (Nat × Nat)

/-- The state after the steps of a schedule. -/
def run : Schedule → System → System
  | [], s => s
  | (t, p) :: rest, s => run rest (step t p s)

/-- The program counters a thread may start at: entering `executeImpl`,
entering `activeWait`, or being an idle dispatcher worker. -/
def Pc.isEntry : Pc → Bool
  | Pc.execEnter => true
  | Pc.waitScan 0 => true
  | Pc.workerIdle => true
  | _ => false

/-- The system before any thread has moved: a group built from the fresh
handles `hs` with cap `k`, and the threads at their entry points. -/
def initial (hs : List task_handle) (k : Int) (threads : List Pc) : System :=
  { group := addTasks hs (make_parallel_group k), threads := threads }

/-- Number of tasks that are grabbed and not done. -/
def inFlight (g : parallel_group) : Nat :=
  g.tasks_.countP (fun h => h.state == GrabState.grabbed)

/-- Execution state of the handle at index `i`, if there is one. -/
def stateAt (g : parallel_group) (i : Nat) : Option GrabState := (g.tasks_[i]?).map (fun h => h.state)

/-- Number of handles that are done. -/
def doneCount (g : parallel_group) : Nat :=
  g.tasks_.countP (fun h => h.state == GrabState.done)

/-- The thread is about to run the body of the task at index `i`. -/
def Pc.atBody (i : Nat) : Pc → Bool
  | Pc.runBody _ j => j == i
  | _ => false

/-- The thread has run the body of the task at index `i` and is about to mark
the handle done. -/
def Pc.atSetDone (i : Nat) : Pc → Bool
  | Pc.setDone _ j => j == i
  | _ => false

/-- The thread has marked a handle done and is about to decrement the active
count. -/
def Pc.atFetchSub : Pc → Bool
  | Pc.fetchSub _ => true
  | _ => false

/-- The thread is about to call `notifyGroupDone`. -/
def Pc.atNotify : Pc → Bool
  | Pc.notify _ => true
  | _ => false

/-- Ownership of grabbed handles: a handle is grabbed exactly while one thread
is between its successful `tryGrab` and marking it done, and the body of a
task has run once for each thread about to mark it done and once if it is
done. -/
def Owned (s : System) : Prop :=
  ∀ i, s.threads.countP (Pc.atBody i) + s.threads.countP (Pc.atSetDone i) =
      (if stateAt s.group i = some GrabState.grabbed then 1 else 0) ∧
    runCount i s.group = s.threads.countP (Pc.atSetDone i) +
      (if stateAt s.group i = some GrabState.done then 1 else 0)

/-- Accounting of completions: every done task has either been subtracted from
the active count or some thread is about to subtract it; and once a thread has
seen the count drop from 1 every task is done. -/
def Accounted (s : System) : Prop :=
  s.group.activeTasksCount_ + doneCount s.group =
      s.group.tasks_.length + s.threads.countP Pc.atFetchSub ∧
  ((0 < notifyCount s.group ∨ 0 < s.threads.countP Pc.atNotify) →
      doneCount s.group = s.group.tasks_.length)

/-- The invariant of the interleaving embedding used for the at-most-once
property. -/
def Sound (n : Nat) (s : System) : Prop :=
  Owned s ∧ Accounted s ∧ s.group.tasks_.length = n

/-- Threads of the sample run: one enters `executeImpl`, one is a dispatcher
worker, one enters `activeWait`. -/
def demoThreads : List Pc := [Pc.execEnter, Pc.workerIdle, Pc.waitScan 0]

/-- Schedule of the sample run: the threads take turns, several steps each,
until the group has joined. -/
def demoSchedule : Schedule :=
  List.replicate 9 (0, 0) ++ List.replicate 12 (1, 0) ++ List.replicate 12 (2, 0) ++
  List.replicate 12 (0, 0) ++ List.replicate 12 (1, 0) ++ List.replicate 8 (2, 0)

/-- Two fresh handles. -/
def twoHandles : List task_handle := [⟨0, GrabState.notGrabbed⟩, ⟨1, GrabState.notGrabbed⟩]

/-- A schedule for a thread in `executeImpl` (thread 0) and a dispatcher worker
(thread 1): thread 0 enters, claims index 1, checks it and hands it to the
dispatcher; the worker pops and grabs it; thread 0 grabs task 0. -/
def capOneSchedule : Schedule :=
  [(0, 0), (0, 0), (0, 0), (0, 0), (0, 0), (1, 0), (1, 0), (0, 0)]

/-- Dispatches a thread may still cause before it has to wait for a
completion, under the cap `k`: a thread in the distribution loop of
`executeImpl` with `scheduledTasks = s` has `k - s` left (one of them for task
0), a thread about to grab a handle or to refill after a completion has 1. -/
def Pc.credit (k : Int) : Pc → Int
  | Pc.execEnter => k
  | Pc.distClaim s => k - s
  | Pc.distIsGrabbed _ s => k - s
  | Pc.distIsDone _ s => k - s
  | Pc.distAdd _ s => k - s
  | Pc.grabZero => 1
  | Pc.fetchSub _ => 1
  | Pc.refillClaim _ => 1
  | Pc.refillIsGrabbed _ _ => 1
  | Pc.refillIsDone _ _ => 1
  | Pc.refillAdd _ _ => 1
  | Pc.workerGrab _ => 1
  | _ => 0

/-- The caller is not a thread in `activeWait`. -/
def Caller.noWaiter : Caller → Bool
  | Caller.waiter _ => false
  | _ => true

/-- Program counters of the threads considered for the cap: no thread is in
`activeWait`, and in the distribution loop of `executeImpl` fewer than `k - 1`
handles have been handed out so far. -/
def Pc.capOK (k : Int) : Pc → Bool
  | Pc.distClaim s => decide (s + 2 ≤ k)
  | Pc.distIsGrabbed _ s => decide (s + 2 ≤ k)
  | Pc.distIsDone _ s => decide (s + 2 ≤ k)
  | Pc.distAdd _ s => decide (s + 2 ≤ k)
  | Pc.runBody c _ => c.noWaiter
  | Pc.setDone c _ => c.noWaiter
  | Pc.fetchSub c => c.noWaiter
  | Pc.notify c => c.noWaiter
  | Pc.refillClaim c => c.noWaiter
  | Pc.refillIsGrabbed c _ => c.noWaiter
  | Pc.refillIsDone c _ => c.noWaiter
  | Pc.refillAdd c _ => c.noWaiter
  | Pc.waitScan _ => false
  | Pc.waitJoin => false
  | _ => true

/-- The invariant behind the cap: the handles queued at the dispatcher, the
tasks in flight and the dispatches the threads may still cause never add up to
more than `k`. -/
def Capped (k : Int) (s : System) : Prop :=
  Owned s ∧ (∀ pc ∈ s.threads, pc.capOK k = true) ∧ s.group.maxSimultaneousTasks_ = k ∧
  (s.group.queue.length : Int) + inFlight s.group + (s.threads.map (Pc.credit k)).sum ≤ k

/-- A schedule after which two threads are inside `execute()`: the thread in
`executeImpl` (thread 0) hands the handle at index 1 to the dispatcher and
grabs task 0; the worker (thread 1) pops the handle and grabs it. -/
def grabSchedule : Schedule := List.replicate 6 (0, 0) ++ List.replicate 2 (1, 0)

/-! ## Theorems on the sequential embedding -/

theorem refillLoop_queueing_frame (n fuel : Nat) (g : parallel_group)
    (hn : n = g.tasks_.length) (hf1 : 1 ≤ fuel) (hf : n + 1 ≤ fuel + g.currentTaskIndex_) :
    ∃ g', refillLoop queueingAdd n fuel g = some g' ∧ RefillFrame g g' := by
  induction fuel generalizing g with
  | zero => omega
  | succ f ih =>
    unfold refillLoop
    by_cases hi : g.currentTaskIndex_ < n
    · have hlt : g.currentTaskIndex_ < g.tasks_.length := hn ▸ hi
      simp only [hi, if_true, List.getElem?_eq_getElem hlt]
      split
      · refine ⟨_, rfl, ?_⟩
        simp [RefillFrame, queueingAdd, notifyCount, runCount, List.count_append]
      · obtain ⟨g', h1, h2⟩ := ih
          { g with currentTaskIndex_ := g.currentTaskIndex_ + 1,
                   trace := g.trace ++ [Event.claimed g.currentTaskIndex_] }
          hn (by omega) (by show n + 1 ≤ f + (g.currentTaskIndex_ + 1); omega)
        refine ⟨g', h1, ?_⟩
        obtain ⟨a, b, c, d, e, f1, f2⟩ := h2
        refine ⟨a, b, c, d, ?_, ?_, ?_⟩
        · simp only at e; omega
        · simpa [notifyCount, List.count_append] using f1
        · intro i; simpa [runCount, List.count_append] using f2 i
    · simp only [hi, if_false]
      refine ⟨_, rfl, ?_⟩
      simp [RefillFrame, notifyCount, runCount, List.count_append]



theorem oneTaskDone_queueing (g : parallel_group) :
    ∃ g', oneTaskDone queueingAdd g = some g' ∧ g'.tasks_ = g.tasks_ ∧
      g'.activeTasksCount_ = g.activeTasksCount_ - 1 ∧
      g'.maxSimultaneousTasks_ = g.maxSimultaneousTasks_ ∧
      g.currentTaskIndex_ ≤ g'.currentTaskIndex_ ∧
      notifyCount g' = notifyCount g + (if g.activeTasksCount_ = 1 then 1 else 0) ∧
      ∀ i, runCount i g' = runCount i g := by
  unfold oneTaskDone
  by_cases h1 : g.activeTasksCount_ = 1
  · simp [h1, notifyGroupDone, notifyCount, runCount, List.count_append]
  · simp only [h1, if_false]
    by_cases hk : g.maxSimultaneousTasks_ > 0
    · simp only [hk, if_true]
      obtain ⟨g', e, a, b, c, _, d, f1, f2⟩ := refillLoop_queueing_frame g.tasks_.length
        (g.tasks_.length + 1) { g with activeTasksCount_ := g.activeTasksCount_ - 1 }
        rfl (by omega) (by omega)
      exact ⟨g', e, a, b, c, d, by simpa using f1, f2⟩
    · simp [hk, notifyCount, runCount]

theorem oneTaskDoneTimes_queueing (j : Nat) (g : parallel_group) :
    ∃ gj, oneTaskDoneTimes queueingAdd j g = some gj ∧ gj.tasks_ = g.tasks_ ∧
      gj.activeTasksCount_ = g.activeTasksCount_ - j ∧
      notifyCount gj = notifyCount g +
        (if 1 ≤ g.activeTasksCount_ ∧ g.activeTasksCount_ ≤ j then 1 else 0) := by
  induction j generalizing g with
  | zero =>
    refine ⟨g, rfl, rfl, by simp, ?_⟩
    rw [if_neg (by push_cast; omega)]; rfl
  | succ j ih =>
    obtain ⟨g1, e1, t1, a1, _, _, n1, _⟩ := oneTaskDone_queueing g
    obtain ⟨gj, ej, tj, aj, nj⟩ := ih g1
    refine ⟨gj, ?_, ?_, ?_, ?_⟩
    · simp [oneTaskDoneTimes, e1, ej]
    · rw [tj, t1]
    · rw [aj, a1]; push_cast; omega
    · rw [nj, n1, a1]
      push_cast
      split_ifs <;> omega

/-! ### Handle states as a function of the index -/

theorem length_withStates (st : Nat → GrabState) (k : Nat) (hs : List task_handle) :
    (withStates st k hs).length = hs.length := by
  induction hs generalizing k with
  | nil => rfl
  | cons h t ih => simp [withStates, ih]

theorem getElem?_withStates (st : Nat → GrabState) (k : Nat) (hs : List task_handle) (i : Nat) :
    (withStates st k hs)[i]? = (hs[i]?).map (fun h => { h with state := st (k + i) }) := by
  induction hs generalizing k i with
  | nil => simp [withStates]
  | cons h t ih =>
    cases i with
    | zero => simp [withStates]
    | succ i => simp [withStates, ih, Nat.add_assoc, Nat.add_comm 1 i]

theorem withStates_congr (st st' : Nat → GrabState) (k : Nat) (hs : List task_handle)
    (h : ∀ i, i < hs.length → st (k + i) = st' (k + i)) :
    withStates st k hs = withStates st' k hs := by
  apply List.ext_getElem?
  intro i
  rw [getElem?_withStates, getElem?_withStates]
  by_cases hi : i < hs.length
  · simp [List.getElem?_eq_getElem hi, h i hi]
  · simp [List.getElem?_eq_none (Nat.le_of_not_lt hi)]

theorem getElem?_withStates_zero (st : Nat → GrabState) (hs : List task_handle) (i : Nat) :
    (withStates st 0 hs)[i]? = (hs[i]?).map (fun h => { h with state := st i }) := by
  rw [getElem?_withStates]
  simp only [Nat.zero_add]

theorem set_withStates (st : Nat → GrabState) (hs : List task_handle) (i : Nat)
    (h : task_handle) (s : GrabState) (hi : (withStates st 0 hs)[i]? = some h) :
    (withStates st 0 hs).set i { h with state := s } =
      withStates (Function.update st i s) 0 hs := by
  apply List.ext_getElem?
  intro j
  rw [List.getElem?_set, getElem?_withStates_zero, getElem?_withStates_zero, length_withStates]
  rw [getElem?_withStates_zero] at hi
  by_cases hij : i = j
  · subst hij
    cases hh : hs[i]? with
    | none => simp [hh] at hi
    | some h0 =>
      have hlt : i < hs.length := by
        by_contra hc
        simp [List.getElem?_eq_none (Nat.le_of_not_lt hc)] at hh
      simp [hh] at hi
      simp [hlt, ← hi]
  · simp [hij, Function.update_noteq (Ne.symm hij)]

theorem withStates_self (hs : List task_handle) (s : GrabState)
    (h : ∀ x ∈ hs, x.state = s) (k : Nat) : withStates (fun _ => s) k hs = hs := by
  induction hs generalizing k with
  | nil => rfl
  | cons a t ih =>
    have ha : a.state = s := h a (List.mem_cons_self _ _)
    simp only [withStates]
    rw [ih (fun x hx => h x (List.mem_cons_of_mem _ hx))]
    cases a; simp_all

/-! ### Evaluation lemmas for the member functions -/

theorem grabAndExecute_notGrabbed (add : Dispatcher) (g : parallel_group)
    (hs : List task_handle) (st : Nat → GrabState) (i : Nat)
    (ht : g.tasks_ = withStates st 0 hs) (hi : i < hs.length)
    (hst : st i = GrabState.notGrabbed) :
    grabAndExecute add i g =
      oneTaskDone add { g with tasks_ := withStates (Function.update st i GrabState.done) 0 hs,
                               trace := g.trace ++ [Event.ran i] } := by
  have h2 : (withStates st 0 hs)[i]? = some ⟨hs[i].uid, GrabState.notGrabbed⟩ := by
    rw [getElem?_withStates_zero, List.getElem?_eq_getElem hi, hst]; rfl
  have h3 := set_withStates st hs i _ GrabState.grabbed h2
  have h4 : (withStates (Function.update st i GrabState.grabbed) 0 hs)[i]? =
      some ⟨hs[i].uid, GrabState.grabbed⟩ := by
    rw [getElem?_withStates_zero, List.getElem?_eq_getElem hi]; simp
  have h5 := set_withStates (Function.update st i GrabState.grabbed) hs i _ GrabState.done h4
  simp only [Function.update_idem] at h5
  simp only [grabAndExecute, tryGrabAt, ht, h2, tryGrab, if_true, h3, execute, h4, h5]

theorem grabAndExecute_taken (add : Dispatcher) (g : parallel_group)
    (hs : List task_handle) (st : Nat → GrabState) (i : Nat)
    (ht : g.tasks_ = withStates st 0 hs) (hi : i < hs.length)
    (hst : st i ≠ GrabState.notGrabbed) :
    grabAndExecute add i g = some g := by
  have h2 : (withStates st 0 hs)[i]? = some ⟨hs[i].uid, st i⟩ := by
    rw [getElem?_withStates_zero, List.getElem?_eq_getElem hi]; rfl
  have h3 := set_withStates st hs i _ (st i) h2
  simp only [Function.update_eq_self] at h3
  simp only [grabAndExecute, tryGrabAt, ht, h2, tryGrab, hst, if_false, h3]
  rw [← ht]

theorem oneTaskDone_last (add : Dispatcher) (g : parallel_group)
    (h : g.activeTasksCount_ = 1) :
    oneTaskDone add g =
      some { g with activeTasksCount_ := 0, trace := g.trace ++ [Event.notified] } := by
  simp [oneTaskDone, h, notifyGroupDone]

theorem oneTaskDone_unbounded (add : Dispatcher) (g : parallel_group)
    (h : g.activeTasksCount_ ≠ 1) (hk : ¬ g.maxSimultaneousTasks_ > 0) :
    oneTaskDone add g = some { g with activeTasksCount_ := g.activeTasksCount_ - 1 } := by
  simp [oneTaskDone, h, hk]

theorem oneTaskDone_capped (add : Dispatcher) (g : parallel_group)
    (h : g.activeTasksCount_ ≠ 1) (hk : g.maxSimultaneousTasks_ > 0) :
    oneTaskDone add g =
      refillLoop add g.tasks_.length (g.tasks_.length + 1)
        { g with activeTasksCount_ := g.activeTasksCount_ - 1 } := by
  simp [oneTaskDone, h, hk]

theorem addTasks_spec (hs : List task_handle) (g : parallel_group) :
    addTasks hs g =
      { g with tasks_ := g.tasks_ ++ hs,
               activeTasksCount_ := g.activeTasksCount_ + hs.length } := by
  induction hs generalizing g with
  | nil => simp [addTasks]
  | cons h t ih =>
    have : addTasks (h :: t) g = addTasks t (addTaskImpl h g) := rfl
    rw [this, ih]
    simp [addTaskImpl]
    omega

theorem withStates_const (s : GrabState) (k : Nat) (hs : List task_handle) :
    withStates (fun _ => s) k hs = hs.map (fun h => { h with state := s }) := by
  induction hs generalizing k with
  | nil => rfl
  | cons a t ih => simp [withStates, ih]

/-! ### Scenario A: a dispatcher that runs handles at once -/

theorem count_ran_inlineRuns (i c n : Nat) :
    (inlineRuns c n).count (Event.ran i) = if c ≤ i ∧ i < c + n then 1 else 0 := by
  induction n with
  | zero => rw [if_neg (by omega)]; rfl
  | succ n ih =>
    simp only [inlineRuns, List.count_append, ih, List.count_cons, List.count_nil]
    by_cases h : c + n = i
    · subst h; simp
    · have h' : ¬ (Event.ran (c + n) == Event.ran i) = true := by simpa using h
      simp only [h', if_false]
      simp
      split_ifs <;> omega

theorem count_notified_inlineRuns (c n : Nat) :
    (inlineRuns c n).count Event.notified = 0 := by
  induction n with
  | zero => simp [inlineRuns]
  | succ n ih => simp [inlineRuns, List.count_append, ih]

theorem handed_inlineRuns (c n : Nat) :
    (inlineRuns c n).filterMap handedIndex =
      List.range' c n := by
  induction n with
  | zero => simp [inlineRuns]
  | succ n ih => simp [inlineRuns, List.filterMap_append, ih, List.range'_concat, handedIndex]

theorem scenarioA_loop (hs : List task_handle) (d m : Nat) :
    ∀ c fuel, 1 ≤ c → c + m = hs.length → m + 1 ≤ fuel →
      distributeLoop (immediateAdd (d + 1)) hs.length fuel 0 (scenarioA_at hs c) =
        some { scenarioA_at hs hs.length with
                currentTaskIndex_ := hs.length + 1,
                trace := inlineRuns 1 (hs.length - 1) ++ [Event.claimed hs.length] } := by
  induction m with
  | zero =>
    intro c fuel hc hcm hf
    obtain ⟨f, rfl⟩ : ∃ f, fuel = f + 1 := ⟨fuel - 1, by omega⟩
    have : c = hs.length := by omega
    subst this
    simp [distributeLoop, scenarioA_at]
  | succ m ih =>
    intro c fuel hc hcm hf
    obtain ⟨f, rfl⟩ : ∃ f, fuel = f + 1 := ⟨fuel - 1, by omega⟩
    have hlt : c < hs.length := by omega
    have hnext := ih (c + 1) f (by omega) (by omega) (by omega)
    have hst : (fun i => if 1 ≤ i ∧ i < c then GrabState.done else GrabState.notGrabbed) c =
        GrabState.notGrabbed := by simp
    have hget : (withStates (fun i => if 1 ≤ i ∧ i < c then GrabState.done
        else GrabState.notGrabbed) 0 hs)[c]? = some ⟨hs[c].uid, GrabState.notGrabbed⟩ := by
      rw [getElem?_withStates_zero, List.getElem?_eq_getElem hlt]; simp
    have hadd : immediateAdd (d + 1) c
        { scenarioA_at hs c with
            currentTaskIndex_ := c + 1,
            trace := inlineRuns 1 (c - 1) ++ [Event.claimed c] } =
        some (scenarioA_at hs (c + 1)) := by
      show grabAndExecute (immediateAdd d) c _ = _
      rw [grabAndExecute_notGrabbed _ _ hs _ c rfl hlt hst, oneTaskDone_unbounded]
      · simp only [scenarioA_at, Option.some.injEq, parallel_group.mk.injEq, and_true, true_and]
        refine ⟨?_, by push_cast; omega, ?_⟩
        · apply withStates_congr
          intro i _
          simp only [Nat.zero_add, Function.update_apply]
          split_ifs <;> first | rfl | omega
        · obtain ⟨c', rfl⟩ : ∃ c', c = c' + 1 := ⟨c - 1, by omega⟩
          simp [inlineRuns, Nat.add_comm 1 c']
      · simp only [scenarioA_at]; omega
      · simp [scenarioA_at]
    simp only [distributeLoop, scenarioA_at, hlt, if_true, hget, isGrabbed, isDone] at hadd ⊢
    simp only [scenarioA_at] at hnext
    simp only [hadd, gt_iff_lt, lt_self_iff_false, if_false]
    simpa using hnext

/-! ### A dispatcher that only queues -/

theorem distributeLoop_exhausted (add : Dispatcher) (n fuel : Nat) (s : Int)
    (g : parallel_group) (h : n ≤ g.currentTaskIndex_) :
    distributeLoop add n (fuel + 1) s g =
      some { g with currentTaskIndex_ := g.currentTaskIndex_ + 1,
                    trace := g.trace ++ [Event.claimed g.currentTaskIndex_] } := by
  simp [distributeLoop, Nat.not_lt.mpr h]

theorem distributeLoop_queueing_step (hs : List task_handle) (st : Nat → GrabState)
    (fuel : Nat) (s : Int) (g : parallel_group)
    (ht : g.tasks_ = withStates st 0 hs) (hc : g.currentTaskIndex_ < hs.length)
    (hst : st g.currentTaskIndex_ = GrabState.notGrabbed) :
    distributeLoop queueingAdd hs.length (fuel + 1) s g =
      if g.maxSimultaneousTasks_ > 0 then
        if s + 1 ≥ g.maxSimultaneousTasks_ - 1 then some (handOne g)
        else distributeLoop queueingAdd hs.length fuel (s + 1) (handOne g)
      else distributeLoop queueingAdd hs.length fuel s (handOne g) := by
  have hget : (withStates st 0 hs)[g.currentTaskIndex_]? =
      some ⟨hs[g.currentTaskIndex_].uid, GrabState.notGrabbed⟩ := by
    rw [getElem?_withStates_zero, List.getElem?_eq_getElem hc, hst]; rfl
  simp [distributeLoop, hc, ht, hget, isGrabbed, isDone, queueingAdd, handOne]

theorem handMany_succ (m : Nat) (g : parallel_group) :
    handMany (m + 1) g = handMany m (handOne g) := by
  simp [handMany, handOne, queuedHands, List.range'_succ, Nat.add_comm 1 m, Nat.add_assoc]

theorem distributeLoop_queueing_run (hs : List task_handle) (st : Nat → GrabState) (m : Nat) :
    ∀ (fuel : Nat) (s : Int) (g : parallel_group),
      g.tasks_ = withStates st 0 hs → g.currentTaskIndex_ + m ≤ hs.length →
      (∀ i, g.currentTaskIndex_ ≤ i → i < g.currentTaskIndex_ + m → st i = GrabState.notGrabbed) →
      (g.maxSimultaneousTasks_ ≤ 0 ∨ s + m < g.maxSimultaneousTasks_ - 1) →
      distributeLoop queueingAdd hs.length (fuel + m) s g =
        distributeLoop queueingAdd hs.length fuel
          (if g.maxSimultaneousTasks_ > 0 then s + m else s) (handMany m g) := by
  induction m with
  | zero =>
    intro fuel s g _ _ _ _
    have : handMany 0 g = g := by simp [handMany, queuedHands]
    simp [this]
  | succ m ih =>
    intro fuel s g ht hc hst hcap
    have e1 : fuel + (m + 1) = (fuel + m) + 1 := by omega
    rw [e1, distributeLoop_queueing_step hs st _ s g ht (by omega) (hst _ (le_refl _) (by omega))]
    rw [handMany_succ]
    have hih := fun s' => ih fuel s' (handOne g) ht
      (by simp only [handOne]; omega)
      (fun i h1 h2 => hst i (by simp only [handOne] at h1; omega)
        (by simp only [handOne] at h2; omega))
    have hk : (handOne g).maxSimultaneousTasks_ = g.maxSimultaneousTasks_ := rfl
    by_cases hpos : g.maxSimultaneousTasks_ > 0
    · have hlt : s + (m + 1 : Nat) < g.maxSimultaneousTasks_ - 1 := by
        rcases hcap with h | h
        · omega
        · exact h
      have hnb : ¬ (s + 1 ≥ g.maxSimultaneousTasks_ - 1) := by push_cast at hlt; omega
      simp only [hpos, if_true, hnb, if_false]
      rw [hih (s + 1) (Or.inr (by rw [hk]; push_cast at hlt; omega))]
      simp only [hk, hpos, if_true]
      congr 1; push_cast; omega
    · simp only [hpos, if_false]
      rw [hih s (Or.inl (by rw [hk]; omega))]
      simp only [hk, hpos, if_false]

theorem activeWaitLoop_steal (hs : List task_handle) (m : Nat) :
    ∀ (j : Nat) (g : parallel_group),
      g.tasks_ = withStates (fun i => if i < j then GrabState.done else GrabState.notGrabbed) 0 hs →
      j + (m + 1) = hs.length → g.activeTasksCount_ = (m : Int) + 1 →
      ¬ g.maxSimultaneousTasks_ > 0 →
      activeWaitLoop queueingAdd (m + 1) j g =
        some { g with tasks_ := withStates (fun _ => GrabState.done) 0 hs,
                      activeTasksCount_ := 0,
                      trace := g.trace ++ (List.range' j (m + 1)).map Event.ran ++
                        [Event.notified] } := by
  induction m with
  | zero =>
    intro j g ht hj ha hk
    simp only [activeWaitLoop]
    rw [grabAndExecute_notGrabbed _ g hs _ j ht (by omega) (by simp), oneTaskDone_last _ _ (by simpa using ha)]
    simp only [Option.some.injEq, parallel_group.mk.injEq, and_true, true_and]
    refine ⟨?_, by simp [List.range'_succ]⟩
    apply withStates_congr
    intro i hi
    simp only [Nat.zero_add, Function.update_apply]
    split_ifs <;> first | rfl | omega
  | succ m ih =>
    intro j g ht hj ha hk
    rw [activeWaitLoop]
    rw [grabAndExecute_notGrabbed _ g hs _ j ht (by omega) (by simp),
      oneTaskDone_unbounded _ _ (by show g.activeTasksCount_ ≠ 1; rw [ha]; push_cast; omega) (by exact hk)]
    simp only
    rw [ih (j + 1) _ ?_ (by omega) (by show g.activeTasksCount_ - 1 = (m : Int) + 1; rw [ha]; push_cast; omega) (by exact hk)]
    · simp only [Option.some.injEq, parallel_group.mk.injEq, and_true, true_and]
      rw [List.range'_succ j (m + 1)]
      simp
    · simp only
      apply withStates_congr
      intro i hi
      simp only [Nat.zero_add, Function.update_apply]
      split_ifs <;> first | rfl | omega

theorem count_ran_queuedHands (i c n : Nat) : (queuedHands c n).count (Event.ran i) = 0 := by
  induction n generalizing c with
  | zero => simp [queuedHands]
  | succ n ih => simp [queuedHands, List.count_cons, ih]

theorem count_notified_queuedHands (c n : Nat) : (queuedHands c n).count Event.notified = 0 := by
  induction n generalizing c with
  | zero => simp [queuedHands]
  | succ n ih => simp [queuedHands, List.count_cons, ih]

theorem handed_queuedHands (c n : Nat) :
    (queuedHands c n).filterMap handedIndex = List.range' c n := by
  induction n generalizing c with
  | zero => simp [queuedHands]
  | succ n ih => simp [queuedHands, handedIndex, ih, List.range'_succ]

theorem count_ran_map_ran (i c n : Nat) :
    ((List.range' c n).map Event.ran).count (Event.ran i) = if c ≤ i ∧ i < c + n then 1 else 0 := by
  induction n generalizing c with
  | zero => rw [if_neg (by omega)]; rfl
  | succ n ih =>
    simp only [List.range'_succ, List.map_cons, List.count_cons, ih]
    by_cases h : c = i
    · subst h; simp
    · have h' : ¬ (Event.ran c == Event.ran i) = true := by simpa using h
      simp only [h', if_false, Nat.add_zero]
      have e : (c + 1 ≤ i ∧ i < c + 1 + n) ↔ (c ≤ i ∧ i < c + (n + 1)) := by omega
      simp [e]

theorem count_notified_map_ran (l : List Nat) : (l.map Event.ran).count Event.notified = 0 := by
  induction l with
  | nil => rfl
  | cons a t ih => simp [List.count_cons, ih]

theorem handed_map_ran (l : List Nat) : (l.map Event.ran).filterMap handedIndex = [] := by
  induction l with
  | nil => rfl
  | cons a t ih => simp [handedIndex, ih]

theorem fresh_group (hs : List task_handle) (k : Int)
    (hfresh : ∀ h ∈ hs, h.state = GrabState.notGrabbed) :
    addTasks hs (make_parallel_group k) =
      { tasks_ := withStates (fun _ => GrabState.notGrabbed) 0 hs,
        activeTasksCount_ := hs.length, maxSimultaneousTasks_ := k, currentTaskIndex_ := 1,
        groupGrabbed := false, queue := [], trace := [] } := by
  rw [addTasks_spec, withStates_self hs _ hfresh]
  simp [make_parallel_group]

theorem executeImpl_queueing_unbounded (hs : List task_handle) (hN : 1 ≤ hs.length)
    (hfresh : ∀ h ∈ hs, h.state = GrabState.notGrabbed) :
    executeImpl queueingAdd (addTasks hs (make_parallel_group 0)) =
      some (afterExecuteQueued hs) := by
  rw [fresh_group hs 0 hfresh]
  unfold executeImpl
  simp only [length_withStates, gt_iff_lt, Nat.lt_of_lt_of_le Nat.zero_lt_one hN, if_true]
  have e : hs.length + 1 = 2 + (hs.length - 1) := by omega
  rw [e, distributeLoop_queueing_run hs (fun _ => GrabState.notGrabbed) (hs.length - 1) 2 0 _ rfl
    (by show 1 + (hs.length - 1) ≤ hs.length; omega) (fun _ _ _ => rfl) (Or.inl (le_refl _)),
    distributeLoop_exhausted _ _ _ _ _ (by show hs.length ≤ 1 + (hs.length - 1); omega)]
  simp only
  rw [grabAndExecute_notGrabbed _ _ hs (fun _ => GrabState.notGrabbed) 0 rfl hN rfl]
  have hw : withStates (Function.update (fun _ => GrabState.notGrabbed) 0 GrabState.done) 0 hs =
      withStates (fun i => if i = 0 then GrabState.done else GrabState.notGrabbed) 0 hs := by
    apply withStates_congr
    intro i _
    simp only [Nat.zero_add, Function.update_apply]
  by_cases h1 : hs.length = 1
  · rw [oneTaskDone_last _ _ (by simp [handMany, h1])]
    simp [afterExecuteQueued, handMany, h1, hw, queuedHands]
  · rw [oneTaskDone_unbounded _ _ (by simp only [handMany]; omega) (by simp [handMany])]
    simp only [afterExecuteQueued, handMany, h1, if_false, hw, Option.some.injEq,
      parallel_group.mk.injEq, and_true, true_and, List.nil_append, List.append_nil]
    refine ⟨?_, ?_⟩
    · omega
    · have : 1 + (hs.length - 1) = hs.length := by omega
      simp [this]

theorem activeWait_afterExecuteQueued (hs : List task_handle) (hN : 1 ≤ hs.length) :
    activeWait queueingAdd (afterExecuteQueued hs) =
      some { tasks_ := hs.map (fun h => { h with state := GrabState.done }),
             activeTasksCount_ := 0, maxSimultaneousTasks_ := 0,
             currentTaskIndex_ := hs.length + 1, groupGrabbed := false,
             queue := List.range' 1 (hs.length - 1),
             trace := queuedHands 1 (hs.length - 1) ++ [Event.claimed hs.length, Event.ran 0] ++
               (List.range' 1 (hs.length - 1)).map Event.ran ++
               [Event.notified, Event.waited] } := by
  unfold activeWait
  have hlen : (afterExecuteQueued hs).tasks_.length = hs.length := by
    simp [afterExecuteQueued, length_withStates]
  obtain ⟨n, hn⟩ : ∃ n, hs.length = n + 1 := ⟨hs.length - 1, by omega⟩
  rw [hlen, hn, activeWaitLoop,
    grabAndExecute_taken _ _ hs _ 0 rfl hN (by simp)]
  simp only
  cases n with
  | zero =>
    have hw : withStates (fun i => if i = 0 then GrabState.done else GrabState.notGrabbed) 0 hs =
        hs.map (fun h => { h with state := GrabState.done }) := by
      rw [← withStates_const GrabState.done 0 hs]
      apply withStates_congr
      intro i hi
      simp only [Nat.zero_add]
      rw [if_pos (by omega)]
    simp [activeWaitLoop, wait, afterExecuteQueued, hn, hw, queuedHands]
  | succ m =>
    have hw : (afterExecuteQueued hs).tasks_ =
        withStates (fun i => if i < 1 then GrabState.done else GrabState.notGrabbed) 0 hs := by
      simp only [afterExecuteQueued]
      apply withStates_congr
      intro i _
      simp only [Nat.zero_add]
      split_ifs <;> first | rfl | omega
    rw [activeWaitLoop_steal hs m 1 _ hw (by omega)
      (by simp only [afterExecuteQueued, hn]; push_cast; omega)
      (by simp [afterExecuteQueued])]
    simp [wait, afterExecuteQueued, hn, withStates_const]

/-! ### A queueing dispatcher under a cap -/

theorem refillLoop_exhausted (add : Dispatcher) (n fuel : Nat) (g : parallel_group)
    (h : n ≤ g.currentTaskIndex_) :
    refillLoop add n (fuel + 1) g =
      some { g with currentTaskIndex_ := g.currentTaskIndex_ + 1,
                    trace := g.trace ++ [Event.claimed g.currentTaskIndex_] } := by
  simp [refillLoop, Nat.not_lt.mpr h]

theorem refillLoop_queueing_hand (hs : List task_handle) (st : Nat → GrabState)
    (fuel : Nat) (g : parallel_group)
    (ht : g.tasks_ = withStates st 0 hs) (hc : g.currentTaskIndex_ < hs.length)
    (hst : st g.currentTaskIndex_ = GrabState.notGrabbed) :
    refillLoop queueingAdd hs.length (fuel + 1) g = some (handOne g) := by
  have hget : (withStates st 0 hs)[g.currentTaskIndex_]? =
      some ⟨hs[g.currentTaskIndex_].uid, GrabState.notGrabbed⟩ := by
    rw [getElem?_withStates_zero, List.getElem?_eq_getElem hc, hst]; rfl
  simp [refillLoop, hc, ht, hget, isGrabbed, isDone, queueingAdd, handOne]

theorem doneBelow_succ (hs : List task_handle) (a : Nat) :
    withStates (Function.update (doneBelow a) a GrabState.done) 0 hs =
      withStates (doneBelow (a + 1)) 0 hs := by
  apply withStates_congr
  intro i _
  simp only [Nat.zero_add, Function.update_apply, doneBelow]
  split_ifs <;> first | rfl | omega

/-- Completion of the task at index `a` in a `Drained` state: the body runs, the
handle becomes done and the completion hands out the handle at `b` if there is
one left and this was not the last task. -/
theorem complete_task (hs : List task_handle) (a b : Nat) (g : parallel_group)
    (hd : Drained hs a b g) (ha : a < hs.length) (hab : a < b) :
    ∃ g', grabAndExecute queueingAdd a g = some g' ∧
      Drained hs (a + 1) (if a + 1 < hs.length ∧ b < hs.length then b + 1 else b) g' ∧
      g'.queue = g.queue ++ (if a + 1 < hs.length ∧ b < hs.length then [b] else []) := by
  obtain ⟨ht, hact, hk, _, hbN, hbc, hcur, hrun, hnot⟩ := hd
  rw [grabAndExecute_notGrabbed _ g hs _ a ht ha (by simp [doneBelow]), doneBelow_succ]
  have hrun' : ∀ (l : List Event) (i : Nat), l.count (Event.ran i) = 0 →
      (g.trace ++ Event.ran a :: l).count (Event.ran i) = if i < a + 1 then 1 else 0 := by
    intro l i hl
    have := hrun i
    simp only [runCount] at this
    simp only [List.count_append, List.count_cons, this, hl]
    by_cases hia : a = i
    · subst hia; simp
    · have h' : ¬ (Event.ran a == Event.ran i) = true := by simpa using hia
      have e : i < a + 1 ↔ i < a := by omega
      simp [h', e]
  have hnot' : ∀ (l : List Event),
      (g.trace ++ Event.ran a :: l).count Event.notified =
        (if hs.length ≤ a then 1 else 0) + l.count Event.notified := by
    intro l
    simp only [notifyCount] at hnot
    simp [List.count_append, List.count_cons, hnot]
  by_cases hlast : a + 1 = hs.length
  · rw [oneTaskDone_last _ _ (by show g.activeTasksCount_ = 1; omega)]
    refine ⟨_, rfl, ⟨rfl, by simp only; omega, hk, by split_ifs <;> omega,
      by split_ifs <;> omega, by split_ifs <;> simp only <;> omega,
      by split_ifs <;> simp only <;> omega, ?_, ?_⟩, ?_⟩
    · intro i
      simp only [runCount, List.append_assoc, List.singleton_append]
      exact hrun' _ i (by simp)
    · simp only [notifyCount, List.append_assoc, List.singleton_append]
      rw [hnot', if_neg (by omega), if_pos (by omega)]; simp
    · rw [if_neg (by omega)]; simp
  · rw [oneTaskDone_capped _ _ (by show g.activeTasksCount_ ≠ 1; omega) (by exact hk)]
    simp only [length_withStates]
    by_cases hb : b < hs.length
    · have hc : g.currentTaskIndex_ = b := hcur hb
      rw [refillLoop_queueing_hand hs (doneBelow (a + 1)) _ _ rfl (by simp only; omega)
        (by simp only [doneBelow, hc]; rw [if_neg (by omega)])]
      rw [if_pos ⟨by omega, hb⟩, if_pos ⟨by omega, hb⟩]
      refine ⟨_, rfl, ⟨rfl, by simp only [handOne]; omega, hk, by omega, by omega,
        by simp only [handOne]; omega, fun _ => by simp only [handOne]; omega, ?_, ?_⟩, ?_⟩
      · intro i
        simp only [runCount, handOne, List.append_assoc, List.singleton_append]
        exact hrun' _ i (by simp)
      · simp only [notifyCount, handOne, List.append_assoc, List.singleton_append]
        rw [hnot', if_neg (by omega), if_neg (by omega)]; simp
      · simp [handOne, hc]
    · rw [refillLoop_exhausted _ _ _ _ (by simp only; omega)]
      rw [if_neg (by omega), if_neg (by omega)]
      refine ⟨_, rfl, ⟨rfl, by simp only; omega, hk, by omega, by omega,
        by simp only; omega, fun h => absurd h hb, ?_, ?_⟩, ?_⟩
      · intro i
        simp only [runCount, List.append_assoc, List.singleton_append]
        exact hrun' _ i (by simp)
      · simp only [notifyCount, List.append_assoc, List.singleton_append]
        rw [hnot', if_neg (by omega), if_neg (by omega)]; simp
      · simp

theorem workerDrain_drains (hs : List task_handle) (n : Nat) :
    ∀ (a b : Nat) (g : parallel_group) (fuel : Nat),
      Drained hs a b g → a + n = hs.length → g.queue = List.range' a (b - a) →
      (a < hs.length → a < b) → n ≤ fuel →
      ∃ g', workerDrain fuel g = some g' ∧ Drained hs hs.length hs.length g' ∧ g'.queue = [] := by
  induction n with
  | zero =>
    intro a b g fuel hd han hq _ _
    obtain ⟨_, _, _, hab, hbN, _⟩ := id hd
    have ha : a = hs.length := by omega
    have hb : b = hs.length := by omega
    subst ha
    have hq' : g.queue = [] := by rw [hq, hb]; simp
    refine ⟨g, ?_, hb ▸ hd, hq'⟩
    cases fuel <;> simp [workerDrain, hq']
  | succ n ih =>
    intro a b g fuel hd han hq hlt hf
    have ha : a < hs.length := by omega
    have hab : a < b := hlt ha
    obtain ⟨f, rfl⟩ : ∃ f, fuel = f + 1 := ⟨fuel - 1, by omega⟩
    have hq' : g.queue = a :: List.range' (a + 1) (b - a - 1) := by
      rw [hq]
      obtain ⟨m, hm⟩ : ∃ m, b - a = m + 1 := ⟨b - a - 1, by omega⟩
      rw [hm, List.range'_succ]; simp
    have hd' : Drained hs a b { g with queue := List.range' (a + 1) (b - a - 1) } := hd
    obtain ⟨g1, e1, d1, q1⟩ := complete_task hs a b _ hd' ha hab
    obtain ⟨_, _, _, _, hbN, _⟩ := id hd
    obtain ⟨g', e', d', q'⟩ := ih (a + 1)
      (if a + 1 < hs.length ∧ b < hs.length then b + 1 else b) g1 f d1 (by omega)
      (by
        rw [q1]
        by_cases hc : a + 1 < hs.length ∧ b < hs.length
        · simp only [hc, and_self, if_true]
          have : b + 1 - (a + 1) = (b - a - 1) + 1 := by omega
          rw [this, List.range'_concat]
          simp; omega
        · simp only [hc, if_false, List.append_nil]
          rw [Nat.sub_sub])
      (by intro h; split_ifs <;> omega) (by omega)
    refine ⟨g', ?_, d', q'⟩
    simp only [workerDrain, hq', e1, e']

theorem queuedHands_concat (c n : Nat) :
    queuedHands c (n + 1) = queuedHands c n ++ [Event.claimed (c + n), Event.handed (c + n)] := by
  induction n generalizing c with
  | zero => simp [queuedHands]
  | succ n ih =>
    rw [queuedHands, ih (c + 1)]
    simp [queuedHands, Nat.add_assoc, Nat.add_comm 1 n]

theorem handOne_handMany (m : Nat) (g : parallel_group) :
    handOne (handMany m g) = handMany (m + 1) g := by
  simp [handMany, handOne, queuedHands_concat, List.range'_concat, Nat.add_assoc]

/-- The distribution loop of `executeImpl` on a fresh group under a cap
`k > 0`, with a queueing dispatcher. -/
theorem distributeLoop_capped (hs : List task_handle) (k : Int) (hk : 0 < k)
    (hN : 1 ≤ hs.length) (g : parallel_group)
    (ht : g.tasks_ = withStates (fun _ => GrabState.notGrabbed) 0 hs)
    (hc : g.currentTaskIndex_ = 1) (hcap : g.maxSimultaneousTasks_ = k) :
    distributeLoop queueingAdd hs.length (hs.length + 1) 0 g =
      some (if hs.length - 1 < initialBurst k then
              { handMany (hs.length - 1) g with
                  currentTaskIndex_ := hs.length + 1,
                  trace := g.trace ++ queuedHands 1 (hs.length - 1) ++ [Event.claimed hs.length] }
            else handMany (initialBurst k) g) := by
  by_cases hA : hs.length - 1 < initialBurst k
  · rw [if_pos hA]
    by_cases h1 : hs.length = 1
    · rw [distributeLoop_exhausted _ _ _ _ _ (by omega)]
      simp [handMany, h1, hc, queuedHands]
    · have e : hs.length + 1 = 2 + (hs.length - 1) := by omega
      have hlt : ((hs.length - 1 : Nat) : Int) < k - 1 := by
        unfold initialBurst at hA; omega
      rw [e, distributeLoop_queueing_run hs _ (hs.length - 1) 2 0 g ht (by omega)
        (fun _ _ _ => rfl) (Or.inr (by rw [hcap]; omega)),
        distributeLoop_exhausted _ _ _ _ _ (by simp only [handMany]; omega)]
      simp [handMany, hc]
      omega
  · rw [if_neg hA]
    obtain ⟨m, hm⟩ : ∃ m, initialBurst k = m + 1 := ⟨initialBurst k - 1, by unfold initialBurst; omega⟩
    have hstep : ∀ (g1 : parallel_group) (s : Int) (f : Nat),
        g1.tasks_ = withStates (fun _ => GrabState.notGrabbed) 0 hs →
        g1.currentTaskIndex_ < hs.length → g1.maxSimultaneousTasks_ = k →
        s + 1 ≥ k - 1 →
        distributeLoop queueingAdd hs.length (f + 1) s g1 = some (handOne g1) := by
      intro g1 s f ht1 hc1 hk1 hs1
      rw [distributeLoop_queueing_step hs _ f s g1 ht1 hc1 rfl, hk1, if_pos hk, if_pos hs1]
    rw [hm, ← handOne_handMany]
    by_cases hm0 : m = 0
    · subst hm0
      have h0 : handMany 0 g = g := by simp [handMany, queuedHands]
      rw [h0]
      have e : hs.length + 1 = hs.length + 1 := rfl
      exact hstep g 0 hs.length ht (by omega) hcap (by unfold initialBurst at hm; omega)
    · have e : hs.length + 1 = (hs.length + 1 - m) + m := by omega
      have hlt : ((m : Nat) : Int) < k - 1 := by unfold initialBurst at hm; omega
      rw [e, distributeLoop_queueing_run hs _ m _ 0 g ht (by omega)
        (fun _ _ _ => rfl) (Or.inr (by rw [hcap]; omega))]
      obtain ⟨f, hf⟩ : ∃ f, hs.length + 1 - m = f + 1 := ⟨hs.length - m, by omega⟩
      rw [hf]
      exact hstep _ _ f ht (by simp only [handMany]; omega) hcap
        (by rw [hcap, if_pos hk]; unfold initialBurst at hm; omega)

theorem executeImpl_capped (hs : List task_handle) (k : Int) (hk : 0 < k)
    (hN : 1 ≤ hs.length) (hfresh : ∀ h ∈ hs, h.state = GrabState.notGrabbed) :
    ∃ g1 b, executeImpl queueingAdd (addTasks hs (make_parallel_group k)) = some g1 ∧
      Drained hs 1 b g1 ∧ g1.queue = List.range' 1 (b - 1) ∧ (1 < hs.length → 1 < b) := by
  rw [fresh_group hs k hfresh]
  unfold executeImpl
  simp only [length_withStates, gt_iff_lt, Nat.lt_of_lt_of_le Nat.zero_lt_one hN, if_true]
  rw [distributeLoop_capped hs k hk hN _ rfl rfl rfl]
  simp only
  have hw : withStates (fun _ => GrabState.notGrabbed) 0 hs = withStates (doneBelow 0) 0 hs := by
    apply withStates_congr
    intro i _
    simp [doneBelow]
  have hb1 : 1 ≤ initialBurst k := by unfold initialBurst; omega
  by_cases hA : hs.length - 1 < initialBurst k
  · rw [if_pos hA]
    have hd : Drained hs 0 hs.length
        { handMany (hs.length - 1)
            ({ tasks_ := withStates (fun _ => GrabState.notGrabbed) 0 hs,
               activeTasksCount_ := hs.length, maxSimultaneousTasks_ := k,
               currentTaskIndex_ := 1, groupGrabbed := false, queue := [],
               trace := [] } : parallel_group) with
            currentTaskIndex_ := hs.length + 1,
            trace := [] ++ queuedHands 1 (hs.length - 1) ++ [Event.claimed hs.length] } := by
      refine ⟨hw, by simp [handMany], hk, by omega, le_refl _, by simp, by simp, ?_, ?_⟩
      · intro i
        simp [runCount, List.count_append, count_ran_queuedHands]
      · simp only [notifyCount]
        rw [if_neg (by omega)]
        simp [List.count_append, count_notified_queuedHands]
    obtain ⟨g1, e1, d1, q1⟩ := complete_task hs 0 hs.length _ hd (by omega) (by omega)
    refine ⟨g1, hs.length, e1, ?_, ?_, fun h => h⟩
    · simpa using d1
    · rw [q1]; simp [handMany]
  · rw [if_neg hA]
    have hd : Drained hs 0 (1 + initialBurst k)
        (handMany (initialBurst k)
            ({ tasks_ := withStates (fun _ => GrabState.notGrabbed) 0 hs,
               activeTasksCount_ := hs.length, maxSimultaneousTasks_ := k,
               currentTaskIndex_ := 1, groupGrabbed := false, queue := [],
               trace := [] } : parallel_group)) := by
      refine ⟨hw, by simp [handMany], hk, by omega, by omega, by simp [handMany],
        by simp [handMany], ?_, ?_⟩
      · intro i
        simp [runCount, handMany, count_ran_queuedHands]
      · simp only [notifyCount]
        rw [if_neg (by omega)]
        simp [handMany, count_notified_queuedHands]
    obtain ⟨g1, e1, d1, q1⟩ := complete_task hs 0 (1 + initialBurst k) _ hd (by omega) (by omega)
    refine ⟨g1, _, e1, d1, ?_, ?_⟩
    · rw [q1]
      by_cases hc : 0 + 1 < hs.length ∧ 1 + initialBurst k < hs.length
      · simp only [hc, and_self, if_true, handMany, List.nil_append]
        have : 1 + initialBurst k + 1 - 1 = initialBurst k + 1 := by omega
        rw [this, List.range'_concat]
        simp
      · simp only [hc, if_false, handMany, List.nil_append, List.append_nil]
        congr 1; omega
    · intro _; split_ifs <;> omega

/-! ### Sequences of operations -/

theorem SameShape.trans {a b c : parallel_group} (h1 : SameShape a b) (h2 : SameShape b c) :
    SameShape a c := ⟨h2.1.trans h1.1, h2.2.trans h1.2⟩

theorem refillLoop_shape (n fuel : Nat) (g g' : parallel_group)
    (h : refillLoop queueingAdd n fuel g = some g') : SameShape g g' := by
  induction fuel generalizing g with
  | zero => simp [refillLoop] at h
  | succ f ih =>
    unfold refillLoop at h
    simp only at h
    split at h
    · split at h
      · exact absurd h (by simp)
      · split at h
        · simp only [queueingAdd, Option.some.injEq] at h
          subst h; exact ⟨rfl, rfl⟩
        · have := ih _ h
          exact ⟨this.1, this.2⟩
    · simp only [Option.some.injEq] at h
      subst h; exact ⟨rfl, rfl⟩

theorem oneTaskDone_shape (g g' : parallel_group)
    (h : oneTaskDone queueingAdd g = some g') : SameShape g g' := by
  unfold oneTaskDone at h
  simp only at h
  split at h
  · simp only [notifyGroupDone, Option.some.injEq] at h
    subst h; exact ⟨rfl, rfl⟩
  · split at h
    · have := refillLoop_shape _ _ _ _ h
      exact ⟨this.1, this.2⟩
    · simp only [Option.some.injEq] at h
      subst h; exact ⟨rfl, rfl⟩

theorem grabAndExecute_shape (i : Nat) (g g' : parallel_group)
    (h : grabAndExecute queueingAdd i g = some g') : SameShape g g' := by
  unfold grabAndExecute tryGrabAt at h
  cases hi : g.tasks_[i]? with
  | none => simp [hi] at h
  | some t =>
    simp only [hi] at h
    cases hb : (tryGrab t).1 with
    | false =>
      simp only [hb, Option.some.injEq] at h
      subst h; exact ⟨by simp, rfl⟩
    | true =>
      simp only [hb] at h
      unfold execute at h
      simp only at h
      split at h
      · exact absurd h (by simp)
      · split at h
        · have := oneTaskDone_shape _ _ h
          exact ⟨by simpa using this.1, this.2⟩
        · exact absurd h (by simp)

theorem distributeLoop_shape (n fuel : Nat) (s : Int) (g g' : parallel_group)
    (h : distributeLoop queueingAdd n fuel s g = some g') : SameShape g g' := by
  induction fuel generalizing g s with
  | zero => simp [distributeLoop] at h
  | succ f ih =>
    unfold distributeLoop at h
    simp only at h
    split at h
    · split at h
      · exact absurd h (by simp)
      · split at h
        · simp only [queueingAdd] at h
          split at h
          · split at h
            · simp only [Option.some.injEq] at h
              subst h; exact ⟨rfl, rfl⟩
            · have := ih _ _ h
              exact ⟨this.1, this.2⟩
          · have := ih _ _ h
            exact ⟨this.1, this.2⟩
        · have := ih _ _ h
          exact ⟨this.1, this.2⟩
    · simp only [Option.some.injEq] at h
      subst h; exact ⟨rfl, rfl⟩

theorem executeImpl_shape (g g' : parallel_group)
    (h : executeImpl queueingAdd g = some g') : SameShape g g' := by
  unfold executeImpl at h
  simp only at h
  split at h
  · split at h
    · exact absurd h (by simp)
    · rename_i g1 h1
      exact (distributeLoop_shape _ _ _ _ _ h1).trans (grabAndExecute_shape _ _ _ h)
  · simp only [Option.some.injEq] at h
    subst h; exact ⟨rfl, rfl⟩

theorem activeWaitLoop_shape (n j : Nat) (g g' : parallel_group)
    (h : activeWaitLoop queueingAdd n j g = some g') : SameShape g g' := by
  induction n generalizing g j with
  | zero =>
    simp only [activeWaitLoop, Option.some.injEq] at h
    subst h; exact ⟨rfl, rfl⟩
  | succ n ih =>
    unfold activeWaitLoop at h
    split at h
    · exact absurd h (by simp)
    · rename_i g1 h1
      exact (grabAndExecute_shape _ _ _ h1).trans (ih _ _ h)

theorem activeWait_shape (g g' : parallel_group)
    (h : activeWait queueingAdd g = some g') : SameShape g g' := by
  unfold activeWait at h
  split at h
  · exact absurd h (by simp)
  · rename_i g1 h1
    unfold wait at h
    split at h
    · simp only [Option.some.injEq] at h
      subst h
      have := activeWaitLoop_shape _ _ _ _ h1
      exact ⟨this.1, this.2⟩
    · exact absurd h (by simp)

theorem singleThreadedLoop_shape (n i : Nat) (g g' : parallel_group)
    (h : singleThreadedLoop n i g = some g') : SameShape g g' := by
  induction n generalizing g i with
  | zero =>
    simp only [singleThreadedLoop, Option.some.injEq] at h
    subst h; exact ⟨rfl, rfl⟩
  | succ n ih =>
    unfold singleThreadedLoop at h
    split at h
    · exact absurd h (by simp)
    · have := ih _ _ h
      exact ⟨this.1, this.2⟩

theorem executeSingleThreadedImpl_shape (g g' : parallel_group)
    (h : executeSingleThreadedImpl g = some g') :
    (g.groupGrabbed = true → SameShape g g') ∧
    (g.groupGrabbed = false → g'.tasks_ = [] ∧ g'.groupGrabbed = true) := by
  unfold executeSingleThreadedImpl tryGrabGroup at h
  cases hg : g.groupGrabbed with
  | true =>
    simp only [hg, if_true, Option.some.injEq] at h
    subst h
    exact ⟨fun _ => ⟨rfl, rfl⟩, fun hc => absurd hc (by simp)⟩
  | false =>
    refine ⟨fun hc => absurd hc (by simp), fun _ => ?_⟩
    simp only [hg, Bool.false_eq_true, if_false] at h
    split at h
    · exact absurd h (by simp)
    · rename_i g3 h3
      simp only [Option.some.injEq] at h
      subst h
      refine ⟨rfl, ?_⟩
      split at h3
      · have := (singleThreadedLoop_shape _ _ _ _ h3).2
        rw [this]
        split <;> rfl
      · simp only [Option.some.injEq] at h3
        subst h3; rfl

theorem applyOps_held (ops : List GroupOp) :
    ∀ (g g' : parallel_group), applyOps ops g = some g' →
      g'.tasks_.length = heldAfter ops g.tasks_.length g.groupGrabbed := by
  induction ops with
  | nil =>
    intro g g' h
    simp only [applyOps, Option.some.injEq] at h
    subst h; rfl
  | cons op ops ih =>
    intro g g' h
    unfold applyOps at h
    split at h
    · exact absurd h (by simp)
    · rename_i g1 h1
      have hih := ih g1 g' h
      cases op with
      | addTask t =>
        simp only [applyOp, Option.some.injEq] at h1
        subst h1
        simpa [heldAfter, addTaskImpl] using hih
      | execute =>
        have := executeImpl_shape _ _ h1
        rw [hih, this.1, this.2]; rfl
      | taskDone =>
        have := oneTaskDone_shape _ _ h1
        rw [hih, this.1, this.2]; rfl
      | activeWait =>
        have := activeWait_shape _ _ h1
        rw [hih, this.1, this.2]; rfl
      | executeSingleThreaded =>
        have := executeSingleThreadedImpl_shape _ _ h1
        cases hg : g.groupGrabbed with
        | true =>
          have hs := this.1 hg
          rw [hih, hs.1, hs.2, hg]; simp [heldAfter]
        | false =>
          have hs := this.2 hg
          rw [hih, hs.1, hs.2]; simp [heldAfter]

theorem heldAfter_no_clear (ops : List GroupOp) (held : Nat) (grabbed : Bool)
    (h : GroupOp.executeSingleThreaded ∉ ops) :
    heldAfter ops held grabbed = held + addedIn ops := by
  induction ops generalizing held with
  | nil => rfl
  | cons op ops ih =>
    have h' : GroupOp.executeSingleThreaded ∉ ops := fun hc => h (List.mem_cons_of_mem _ hc)
    cases op with
    | addTask t => simp only [heldAfter, addedIn, ih _ h']; omega
    | execute => simp only [heldAfter, addedIn, ih _ h']
    | taskDone => simp only [heldAfter, addedIn, ih _ h']
    | activeWait => simp only [heldAfter, addedIn, ih _ h']
    | executeSingleThreaded => exact absurd (List.mem_cons_self _ _) h

/-! ## Claims settled on the sequential embedding -/

/-- C1 (exactly-once join): in a group holding `N ≥ 1` tasks whose active count
is `N`, whatever its cap, cursor and handle states, `N` calls of `oneTaskDone`
in a row call `notifyGroupDone` exactly once: none of the first `N - 1` calls
does (after `j < N` calls the count of notifications is unchanged and the
active count is `N - j`, so the `N`-th call reads 1), and the `N`-th does. -/
theorem exactly_once_join (g : parallel_group) (hN : 1 ≤ g.tasks_.length)
    (hact : g.activeTasksCount_ = g.tasks_.length) :
    (∀ j, j < g.tasks_.length →
      ∃ gj, oneTaskDoneTimes queueingAdd j g = some gj ∧
        notifyCount gj = notifyCount g ∧
        gj.activeTasksCount_ = (g.tasks_.length : Int) - j) ∧
    (∃ gN, oneTaskDoneTimes queueingAdd g.tasks_.length g = some gN ∧
        notifyCount gN = notifyCount g + 1 ∧ gN.activeTasksCount_ = 0) := by
  constructor
  · intro j hj
    obtain ⟨gj, e, _, a, nj⟩ := oneTaskDoneTimes_queueing j g
    refine ⟨gj, e, ?_, by rw [a, hact]⟩
    rw [nj, if_neg (by rw [hact]; omega)]; rfl
  · obtain ⟨gN, e, _, a, nj⟩ := oneTaskDoneTimes_queueing g.tasks_.length g
    refine ⟨gN, e, ?_, by rw [a, hact]; simp⟩
    rw [nj, if_pos (by rw [hact]; omega)]

theorem exactly_once_join_witness :
    1 ≤ (addTasks threeHandles (make_parallel_group 2)).tasks_.length ∧
    (addTasks threeHandles (make_parallel_group 2)).activeTasksCount_ =
      (addTasks threeHandles (make_parallel_group 2)).tasks_.length ∧
    (∀ j, j < (addTasks threeHandles (make_parallel_group 2)).tasks_.length →
      ∃ gj, oneTaskDoneTimes queueingAdd j (addTasks threeHandles (make_parallel_group 2)) = some gj ∧
        notifyCount gj = notifyCount (addTasks threeHandles (make_parallel_group 2)) ∧
        gj.activeTasksCount_ =
          ((addTasks threeHandles (make_parallel_group 2)).tasks_.length : Int) - j) ∧
    (∃ gN, oneTaskDoneTimes queueingAdd (addTasks threeHandles (make_parallel_group 2)).tasks_.length
          (addTasks threeHandles (make_parallel_group 2)) = some gN ∧
        notifyCount gN = notifyCount (addTasks threeHandles (make_parallel_group 2)) + 1 ∧
        gN.activeTasksCount_ = 0) :=
  ⟨by decide, by decide,
    exactly_once_join (addTasks threeHandles (make_parallel_group 2)) (by decide) (by decide)⟩

/-- C4 (Scenario A): on a freshly built group of `N ≥ 1` tasks with cap 0 and a
dispatcher whose `add` grabs and runs the handle at once, `executeImpl` returns;
it hands exactly the indices `1 .. N-1` to the dispatcher, in ascending order
and each once (each runs during its `add`), then runs task 0 on the calling
thread; every task has run exactly once, all are done, the active count is 0,
and `notifyGroupDone` fired exactly once, as the last event, in the completion
of task 0, which is the `N`-th completion. -/
theorem scenario_A (hs : List task_handle) (d : Nat) (hN : 1 ≤ hs.length)
    (hfresh : ∀ h ∈ hs, h.state = GrabState.notGrabbed) :
    ∃ g', executeImpl (immediateAdd (d + 1)) (addTasks hs (make_parallel_group 0)) = some g' ∧
      g'.trace = inlineRuns 1 (hs.length - 1) ++
        [Event.claimed hs.length, Event.ran 0, Event.notified] ∧
      handedLog g' = List.range' 1 (hs.length - 1) ∧
      (∀ i, i < hs.length → runCount i g' = 1) ∧
      notifyCount g' = 1 ∧
      g'.tasks_ = hs.map (fun h => { h with state := GrabState.done }) ∧
      g'.activeTasksCount_ = 0 ∧ g'.queue = [] := by
  have hinit : addTasks hs (make_parallel_group 0) = scenarioA_at hs 1 := by
    rw [addTasks_spec]
    simp only [make_parallel_group, scenarioA_at, parallel_group.mk.injEq, and_true, List.nil_append]
    refine ⟨?_, by simp, by simp [inlineRuns]⟩
    have : (fun i => if 1 ≤ i ∧ i < 1 then GrabState.done else GrabState.notGrabbed) =
        fun _ => GrabState.notGrabbed := by
      funext i; rw [if_neg (by omega)]
    rw [this, withStates_self hs _ hfresh]
  have hloop := scenarioA_loop hs d (hs.length - 1) 1 (hs.length + 1) (le_refl 1)
    (by omega) (by omega)
  have hlen : (scenarioA_at hs 1).tasks_.length = hs.length := by
    simp [scenarioA_at, length_withStates]
  have hzero : grabAndExecute (immediateAdd (d + 1)) 0
      { scenarioA_at hs hs.length with
          currentTaskIndex_ := hs.length + 1,
          trace := inlineRuns 1 (hs.length - 1) ++ [Event.claimed hs.length] } =
      some { tasks_ := hs.map (fun h => { h with state := GrabState.done }),
             activeTasksCount_ := 0, maxSimultaneousTasks_ := 0,
             currentTaskIndex_ := hs.length + 1, groupGrabbed := false, queue := [],
             trace := inlineRuns 1 (hs.length - 1) ++
               [Event.claimed hs.length, Event.ran 0, Event.notified] } := by
    rw [grabAndExecute_notGrabbed _ _ hs _ 0 rfl hN (by simp), oneTaskDone_last]
    · simp only [scenarioA_at, Option.some.injEq, parallel_group.mk.injEq, and_true, true_and]
      refine ⟨?_, by simp⟩
      rw [← withStates_const GrabState.done 0 hs]
      apply withStates_congr
      intro i hi
      simp only [Nat.zero_add, Function.update_apply]
      split_ifs <;> first | rfl | omega
    · simp [scenarioA_at]
  refine ⟨{ tasks_ := hs.map (fun h => { h with state := GrabState.done }),
             activeTasksCount_ := 0, maxSimultaneousTasks_ := 0,
             currentTaskIndex_ := hs.length + 1, groupGrabbed := false, queue := [],
             trace := inlineRuns 1 (hs.length - 1) ++
               [Event.claimed hs.length, Event.ran 0, Event.notified] },
    ?_, rfl, ?_, ?_, ?_, rfl, rfl, rfl⟩
  · rw [hinit]
    unfold executeImpl
    simp only [hlen, gt_iff_lt, hN, Nat.lt_of_lt_of_le Nat.zero_lt_one hN, if_true, hloop, hzero]
  · simp [handedLog, List.filterMap_append, handed_inlineRuns, handedIndex]
  · intro i hi
    simp only [runCount, List.count_append, count_ran_inlineRuns, List.count_cons, List.count_nil]
    by_cases h0 : i = 0
    · subst h0; simp
    · have : ¬ (Event.ran 0 == Event.ran i) = true := by simpa using Ne.symm h0
      simp only [this, if_false]
      rw [if_pos (by omega)]
      simp
  · simp [notifyCount, List.count_append, count_notified_inlineRuns]

theorem scenario_A_witness :
    1 ≤ fiveHandles.length ∧ (∀ h ∈ fiveHandles, h.state = GrabState.notGrabbed) ∧
    ∃ g', executeImpl (immediateAdd (0 + 1)) (addTasks fiveHandles (make_parallel_group 0)) =
        some g' ∧
      g'.trace = inlineRuns 1 (fiveHandles.length - 1) ++
        [Event.claimed fiveHandles.length, Event.ran 0, Event.notified] ∧
      handedLog g' = List.range' 1 (fiveHandles.length - 1) ∧
      (∀ i, i < fiveHandles.length → runCount i g' = 1) ∧
      notifyCount g' = 1 ∧
      g'.tasks_ = fiveHandles.map (fun h => { h with state := GrabState.done }) ∧
      g'.activeTasksCount_ = 0 ∧ g'.queue = [] :=
  ⟨by decide, by decide, scenario_A fiveHandles 0 (by decide) (by decide)⟩

/-- C5 (Scenario B): on a freshly built group of `N ≥ 1` tasks with a cap
`k > 0`, with a dispatcher that queues the handed handles and a worker that,
once `executeImpl` has returned, pops handle after handle and executes the
popped handle if its `tryGrab` succeeds, `executeImpl` returns, the worker
empties the queue within `N` pops, and then all `N` tasks are done, each task
body has run exactly once, the active count is 0 and `notifyGroupDone` has
fired exactly once. -/
theorem scenario_B (hs : List task_handle) (k : Int) (fuel : Nat) (hN : 1 ≤ hs.length)
    (hk : 0 < k) (hfresh : ∀ h ∈ hs, h.state = GrabState.notGrabbed)
    (hfuel : hs.length ≤ fuel) :
    ∃ g1 g2, executeImpl queueingAdd (addTasks hs (make_parallel_group k)) = some g1 ∧
      workerDrain fuel g1 = some g2 ∧
      g2.queue = [] ∧
      g2.tasks_ = hs.map (fun h => { h with state := GrabState.done }) ∧
      (∀ i, i < hs.length → runCount i g2 = 1) ∧
      notifyCount g2 = 1 ∧
      g2.activeTasksCount_ = 0 := by
  obtain ⟨g1, b, e1, d1, q1, hb⟩ := executeImpl_capped hs k hk hN hfresh
  obtain ⟨g2, e2, d2, q2⟩ := workerDrain_drains hs (hs.length - 1) 1 b g1 fuel d1
    (by omega) q1 hb (by omega)
  obtain ⟨ht, hact, _, _, _, _, _, hrun, hnot⟩ := d2
  refine ⟨g1, g2, e1, e2, q2, ?_, ?_, ?_, ?_⟩
  · rw [ht, ← withStates_const GrabState.done 0 hs]
    apply withStates_congr
    intro i hi
    simp only [Nat.zero_add, doneBelow]
    rw [if_pos hi]
  · intro i hi
    rw [hrun i, if_pos hi]
  · rw [hnot, if_pos (le_refl _)]
  · rw [hact]; omega

theorem scenario_B_witness :
    1 ≤ tenHandles.length ∧ (0 : Int) < 3 ∧
    (∀ h ∈ tenHandles, h.state = GrabState.notGrabbed) ∧ tenHandles.length ≤ 10 ∧
    ∃ g1 g2, executeImpl queueingAdd (addTasks tenHandles (make_parallel_group 3)) = some g1 ∧
      workerDrain 10 g1 = some g2 ∧
      g2.queue = [] ∧
      g2.tasks_ = tenHandles.map (fun h => { h with state := GrabState.done }) ∧
      (∀ i, i < tenHandles.length → runCount i g2 = 1) ∧
      notifyCount g2 = 1 ∧
      g2.activeTasksCount_ = 0 :=
  ⟨by decide, by decide, by decide, by decide,
    scenario_B tenHandles 3 10 (by decide) (by decide) (by decide) (by decide)⟩

/-- C6 (inline progress): on a freshly built group of `N ≥ 1` tasks with cap 0
and a dispatcher whose `add` only queues the handle, `executeImpl` followed by
`activeWait` on the same thread both return; afterwards every task is done,
every task body has run exactly once, the active count is 0,
`notifyGroupDone` has fired exactly once and it fired before the final
`wait()` (the trace ends with the notification followed by the return of
`wait`), while the dispatcher still holds the handles `1 .. N-1` it never ran. -/
theorem inline_progress (hs : List task_handle) (hN : 1 ≤ hs.length)
    (hfresh : ∀ h ∈ hs, h.state = GrabState.notGrabbed) :
    ∃ g1 g2, executeImpl queueingAdd (addTasks hs (make_parallel_group 0)) = some g1 ∧
      activeWait queueingAdd g1 = some g2 ∧
      g2.tasks_ = hs.map (fun h => { h with state := GrabState.done }) ∧
      (∀ i, i < hs.length → runCount i g2 = 1) ∧
      g2.activeTasksCount_ = 0 ∧
      notifyCount g2 = 1 ∧
      g2.trace = queuedHands 1 (hs.length - 1) ++ [Event.claimed hs.length, Event.ran 0] ++
        (List.range' 1 (hs.length - 1)).map Event.ran ++ [Event.notified, Event.waited] ∧
      g2.queue = List.range' 1 (hs.length - 1) := by
  refine ⟨afterExecuteQueued hs, _, executeImpl_queueing_unbounded hs hN hfresh,
    activeWait_afterExecuteQueued hs hN, rfl, ?_, rfl, ?_, rfl, rfl⟩
  · intro i hi
    simp only [runCount, List.count_append, count_ran_queuedHands, count_ran_map_ran,
      List.count_cons, List.count_nil]
    by_cases h0 : i = 0
    · subst h0; simp
    · have h1 : ¬ (Event.ran 0 == Event.ran i) = true := by simpa using Ne.symm h0
      have h2 : 1 ≤ i ∧ i < 1 + (hs.length - 1) := by omega
      simp [h1, h2]
  · simp [notifyCount, List.count_append, count_notified_queuedHands, count_notified_map_ran]

theorem inline_progress_witness :
    1 ≤ fiveHandles.length ∧ (∀ h ∈ fiveHandles, h.state = GrabState.notGrabbed) ∧
    ∃ g1 g2, executeImpl queueingAdd (addTasks fiveHandles (make_parallel_group 0)) = some g1 ∧
      activeWait queueingAdd g1 = some g2 ∧
      g2.tasks_ = fiveHandles.map (fun h => { h with state := GrabState.done }) ∧
      (∀ i, i < fiveHandles.length → runCount i g2 = 1) ∧
      g2.activeTasksCount_ = 0 ∧
      notifyCount g2 = 1 ∧
      g2.trace = queuedHands 1 (fiveHandles.length - 1) ++
        [Event.claimed fiveHandles.length, Event.ran 0] ++
        (List.range' 1 (fiveHandles.length - 1)).map Event.ran ++
        [Event.notified, Event.waited] ∧
      g2.queue = List.range' 1 (fiveHandles.length - 1) :=
  ⟨by decide, by decide, inline_progress fiveHandles (by decide) (by decide)⟩

/-- C8 (empty-group execute): `executeImpl` on a group without tasks, with any
dispatcher, returns after reporting the failed `ensure` check and changes
nothing else (no handle handed, no task run, no element indexed, cursor and
active count as before); `empty()` is still true afterwards. -/
theorem executeImpl_empty_group (add : Dispatcher) (g : parallel_group) (h : g.tasks_ = []) :
    executeImpl add g = some { g with trace := g.trace ++ [Event.ensureFailed] } ∧
    empty { g with trace := g.trace ++ [Event.ensureFailed] } = true := by
  simp [executeImpl, h, empty]

theorem executeImpl_empty_group_witness :
    (make_parallel_group 3).tasks_ = [] ∧
    (executeImpl (fun _ _ => none) (make_parallel_group 3) =
        some { make_parallel_group 3 with trace := [] ++ [Event.ensureFailed] } ∧
      empty { make_parallel_group 3 with trace := [] ++ [Event.ensureFailed] } = true) :=
  ⟨rfl, executeImpl_empty_group (fun _ _ => none) (make_parallel_group 3) rfl⟩

/-- C9, as stated, fails: after one task was added, `executeSingleThreadedImpl`
(the group's own `tryGrab` succeeds) runs the task and clears `tasks_`, so
`empty()` returns true although a task was added. -/
theorem empty_iff_never_added_counterexample :
    (applyOps [GroupOp.addTask ⟨0, GrabState.notGrabbed⟩, GroupOp.executeSingleThreaded]
        (make_parallel_group 0)).map (fun g => (empty g, g.trace)) =
      some (true, [Event.ranSingleThreaded 0]) ∧
    addedIn [GroupOp.addTask ⟨0, GrabState.notGrabbed⟩, GroupOp.executeSingleThreaded] = 1 := by
  decide

/-- C9, amended: after every sequence of operations on a freshly constructed
group `empty()` returns true iff no task was added since the construction or
since the one `executeSingleThreadedImpl` that grabbed the group (which clears
the task sequence); in particular, after every sequence of `addTaskImpl`,
`executeImpl`, `oneTaskDone` and `activeWait` calls, `empty()` returns true iff
zero tasks were ever added. -/
theorem empty_iff_none_held (ops : List GroupOp) (k : Int) (g : parallel_group)
    (h : applyOps ops (make_parallel_group k) = some g) :
    (empty g = true ↔ heldAfter ops 0 false = 0) ∧
    (GroupOp.executeSingleThreaded ∉ ops → (empty g = true ↔ addedIn ops = 0)) := by
  have hlen := applyOps_held ops _ g h
  have hiff : empty g = true ↔ heldAfter ops 0 false = 0 := by
    rw [← show g.tasks_.length = heldAfter ops 0 false from hlen]
    simp [empty, List.isEmpty_iff]
  refine ⟨hiff, fun hno => ?_⟩
  rw [hiff, heldAfter_no_clear ops 0 false hno]
  simp

theorem empty_iff_none_held_witness :
    applyOps soloOps (make_parallel_group 0) = some soloDone ∧
    ((empty soloDone = true ↔ heldAfter soloOps 0 false = 0) ∧
      (GroupOp.executeSingleThreaded ∉ soloOps → (empty soloDone = true ↔ addedIn soloOps = 0))) :=
  ⟨by decide, empty_iff_none_held soloOps 0 soloDone (by decide)⟩

/-- C10 (construction invariant): a freshly constructed group has an empty task
sequence, active count 0 and cursor 1; `addTaskImpl` appends the given handle
at the end and raises the active count by 1, leaving everything else (cursor,
cap, earlier handles) as it was; after adding the handles `hs` the sequence is
`hs` in insertion order and the active count is `hs.length`. -/
theorem construction_invariant :
    (∀ k : Int, (make_parallel_group k).tasks_ = [] ∧
        (make_parallel_group k).activeTasksCount_ = 0 ∧
        (make_parallel_group k).currentTaskIndex_ = 1 ∧
        (make_parallel_group k).maxSimultaneousTasks_ = k) ∧
    (∀ (h : task_handle) (g : parallel_group),
        addTaskImpl h g =
          { g with tasks_ := g.tasks_ ++ [h],
                   activeTasksCount_ := g.activeTasksCount_ + 1 }) ∧
    (∀ (hs : List task_handle) (k : Int),
        (addTasks hs (make_parallel_group k)).tasks_ = hs ∧
        (addTasks hs (make_parallel_group k)).activeTasksCount_ = hs.length ∧
        (addTasks hs (make_parallel_group k)).currentTaskIndex_ = 1 ∧
        (addTasks hs (make_parallel_group k)).maxSimultaneousTasks_ = k ∧
        (addTasks hs (make_parallel_group k)).trace = []) := by
  refine ⟨fun k => ⟨rfl, rfl, rfl, rfl⟩, fun h g => rfl, fun hs k => ?_⟩
  rw [addTasks_spec]
  simp [make_parallel_group]

/-! ### Loops from arbitrary handle states -/

theorem singleThreadedLoop_runs (n : Nat) :
    ∀ (i : Nat) (g : parallel_group), i + n ≤ g.tasks_.length →
      singleThreadedLoop n i g =
        some { g with trace := g.trace ++ (List.range' i n).map Event.ranSingleThreaded } := by
  induction n with
  | zero => intro i g _; simp [singleThreadedLoop]
  | succ n ih =>
    intro i g h
    have hi : i < g.tasks_.length := by omega
    rw [singleThreadedLoop]
    simp only [List.getElem?_eq_getElem hi]
    rw [ih (i + 1) _ (by show i + 1 + n ≤ g.tasks_.length; omega)]
    simp [List.range'_succ]

theorem refillLoop_skip (add : Dispatcher) (n m : Nat) :
    ∀ (fuel : Nat) (g : parallel_group), g.currentTaskIndex_ + m ≤ n → n ≤ g.tasks_.length →
      (∀ j, g.currentTaskIndex_ ≤ j → j < g.currentTaskIndex_ + m → freeAt g.tasks_ j = false) →
      refillLoop add n (fuel + m) g =
        refillLoop add n fuel
          { g with currentTaskIndex_ := g.currentTaskIndex_ + m,
                   trace := g.trace ++ (List.range' g.currentTaskIndex_ m).map Event.claimed } := by
  induction m with
  | zero => intro fuel g _ _ _; simp
  | succ m ih =>
    intro fuel g hc hn hfree
    have hlt : g.currentTaskIndex_ < n := by omega
    have hlt' : g.currentTaskIndex_ < g.tasks_.length := by omega
    have hf := hfree g.currentTaskIndex_ (le_refl _) (by omega)
    simp only [freeAt, List.getElem?_eq_getElem hlt'] at hf
    have e : fuel + (m + 1) = (fuel + m) + 1 := by omega
    rw [e, refillLoop]
    simp only [hlt, if_true, List.getElem?_eq_getElem hlt', hf, Bool.false_eq_true, if_false]
    have hih := ih fuel
      { g with currentTaskIndex_ := g.currentTaskIndex_ + 1,
               trace := g.trace ++ [Event.claimed g.currentTaskIndex_] }
      (by show g.currentTaskIndex_ + 1 + m ≤ n; omega) hn
      (fun j h1 h2 => hfree j (by have : g.currentTaskIndex_ + 1 ≤ j := h1; omega)
        (by have : j < g.currentTaskIndex_ + 1 + m := h2; omega))
    rw [hih]
    simp [List.range'_succ, Nat.add_assoc, Nat.add_comm 1 m]

theorem refillLoop_hand (add : Dispatcher) (n fuel : Nat) (g : parallel_group)
    (hc : g.currentTaskIndex_ < n) (hfree : freeAt g.tasks_ g.currentTaskIndex_ = true) :
    refillLoop add n (fuel + 1) g =
      add g.currentTaskIndex_
        { g with currentTaskIndex_ := g.currentTaskIndex_ + 1,
                 trace := g.trace ++ [Event.claimed g.currentTaskIndex_] } := by
  rw [refillLoop]
  simp only [freeAt] at hfree
  cases ht : g.tasks_[g.currentTaskIndex_]? with
  | none => simp [ht] at hfree
  | some h =>
    simp only [ht] at hfree
    simp only [hc, if_true, ht, hfree]

theorem oneTaskDone_refill_hand (g : parallel_group) (i : Nat)
    (h1 : g.activeTasksCount_ ≠ 1) (hk : 0 < g.maxSimultaneousTasks_)
    (hci : g.currentTaskIndex_ ≤ i) (hi : i < g.tasks_.length)
    (hfree : freeAt g.tasks_ i = true)
    (hlow : ∀ j, g.currentTaskIndex_ ≤ j → j < i → freeAt g.tasks_ j = false) :
    oneTaskDone queueingAdd g =
      some { g with activeTasksCount_ := g.activeTasksCount_ - 1,
                    currentTaskIndex_ := i + 1,
                    queue := g.queue ++ [i],
                    trace := g.trace ++
                      (List.range' g.currentTaskIndex_ (i + 1 - g.currentTaskIndex_)).map
                        Event.claimed ++ [Event.handed i] } := by
  rw [oneTaskDone_capped _ _ h1 hk]
  obtain ⟨f, hf⟩ : ∃ f, g.tasks_.length + 1 = (f + 1) + (i - g.currentTaskIndex_) :=
    ⟨g.tasks_.length - (i - g.currentTaskIndex_), by omega⟩
  have hskip := refillLoop_skip queueingAdd g.tasks_.length (i - g.currentTaskIndex_) (f + 1)
    { g with activeTasksCount_ := g.activeTasksCount_ - 1 }
    (by show g.currentTaskIndex_ + (i - g.currentTaskIndex_) ≤ g.tasks_.length; omega)
    (le_refl _)
    (fun j h1 h2 => hlow j h1 (by have : j < g.currentTaskIndex_ + (i - g.currentTaskIndex_) := h2
                                  omega))
  rw [hf, hskip]
  have hcur : g.currentTaskIndex_ + (i - g.currentTaskIndex_) = i := by omega
  have hlt : g.currentTaskIndex_ + (i - g.currentTaskIndex_) < g.tasks_.length := by omega
  have hfr : freeAt g.tasks_ (g.currentTaskIndex_ + (i - g.currentTaskIndex_)) = true := by
    rw [hcur]; exact hfree
  rw [refillLoop_hand _ _ _ _ (by exact hlt) (by exact hfr)]
  simp only [queueingAdd, hcur, Option.some.injEq, parallel_group.mk.injEq, and_true, true_and]
  have e : i + 1 - g.currentTaskIndex_ = (i - g.currentTaskIndex_) + 1 := by omega
  rw [e, List.range'_concat]
  simp [hcur]

theorem oneTaskDone_refill_none (g : parallel_group)
    (h1 : g.activeTasksCount_ ≠ 1) (hk : 0 < g.maxSimultaneousTasks_)
    (hnone : ∀ j, g.currentTaskIndex_ ≤ j → j < g.tasks_.length → freeAt g.tasks_ j = false) :
    oneTaskDone queueingAdd g =
      some { g with activeTasksCount_ := g.activeTasksCount_ - 1,
                    currentTaskIndex_ := max g.currentTaskIndex_ g.tasks_.length + 1,
                    trace := g.trace ++
                      (List.range' g.currentTaskIndex_
                        (max g.currentTaskIndex_ g.tasks_.length + 1 - g.currentTaskIndex_)).map
                        Event.claimed } := by
  rw [oneTaskDone_capped _ _ h1 hk]
  by_cases hc : g.tasks_.length ≤ g.currentTaskIndex_
  · rw [refillLoop_exhausted _ _ _ _ (by exact hc)]
    have hm : max g.currentTaskIndex_ g.tasks_.length = g.currentTaskIndex_ := by omega
    have e : g.currentTaskIndex_ + 1 - g.currentTaskIndex_ = 1 := by omega
    simp [hm, e, List.range'_succ]
  · obtain ⟨f, hf⟩ : ∃ f, g.tasks_.length + 1 =
        (f + 1) + (g.tasks_.length - g.currentTaskIndex_) := ⟨g.currentTaskIndex_, by omega⟩
    have hskip := refillLoop_skip queueingAdd g.tasks_.length
      (g.tasks_.length - g.currentTaskIndex_) (f + 1)
      { g with activeTasksCount_ := g.activeTasksCount_ - 1 }
      (by show g.currentTaskIndex_ + (g.tasks_.length - g.currentTaskIndex_) ≤ g.tasks_.length
          omega)
      (le_refl _)
      (fun j h1 h2 => hnone j h1
        (by have : j < g.currentTaskIndex_ + (g.tasks_.length - g.currentTaskIndex_) := h2
            omega))
    rw [hf, hskip]
    have hcur : g.currentTaskIndex_ + (g.tasks_.length - g.currentTaskIndex_) =
        g.tasks_.length := by omega
    have hge : g.tasks_.length ≤ g.currentTaskIndex_ + (g.tasks_.length - g.currentTaskIndex_) := by
      omega
    rw [refillLoop_exhausted _ _ _ _ (by exact hge)]
    have hm : max g.currentTaskIndex_ g.tasks_.length = g.tasks_.length := by omega
    have e : g.tasks_.length + 1 - g.currentTaskIndex_ =
        (g.tasks_.length - g.currentTaskIndex_) + 1 := by omega
    simp only [hcur, hm, e, List.range'_concat, Option.some.injEq, parallel_group.mk.injEq,
      and_true, true_and]
    simp [hcur]

theorem count_ran_scanTrace (tasks : List task_handle) (i c m : Nat) :
    (scanTrace tasks c m).count (Event.ran i) = 0 := by
  induction m generalizing c with
  | zero => rfl
  | succ m ih =>
    rw [scanTrace, List.count_append, ih]
    split <;> simp [List.count_cons]

theorem handedLog_handMany (m : Nat) (g : parallel_group) :
    handedLog (handMany m g) = handedLog g ++ List.range' g.currentTaskIndex_ m := by
  simp [handedLog, handMany, List.filterMap_append, handed_queuedHands]

/-- The distribution loop of `executeImpl` under a cap `k > 0`, from any state
and with a queueing dispatcher, hands at most `max 1 (k - 1 - scheduledTasks)`
handles to the dispatcher. -/
theorem distributeLoop_hand_bound (k : Int) (hk : 0 < k) (n fuel : Nat) :
    ∀ (s : Int) (g g' : parallel_group), g.maxSimultaneousTasks_ = k →
      distributeLoop queueingAdd n fuel s g = some g' →
      ((handedLog g').length : Int) ≤ (handedLog g).length + max 1 (k - 1 - s) := by
  induction fuel with
  | zero => intro s g g' _ h; simp [distributeLoop] at h
  | succ f ih =>
    intro s g g' hcap h
    unfold distributeLoop at h
    simp only at h
    split at h
    · split at h
      · exact absurd h (by simp)
      · split at h
        · simp only [queueingAdd, hcap, gt_iff_lt, hk, if_true] at h
          split at h
          · simp only [Option.some.injEq] at h
            subst h
            simp [handedLog, handedIndex, List.filterMap_append]
          · have := ih (s + 1) _ g' rfl h
            simp only [handedLog, List.filterMap_append, List.length_append] at this ⊢
            have e1 : ([Event.claimed g.currentTaskIndex_].filterMap handedIndex).length = 0 := rfl
            have e2 : ([Event.handed g.currentTaskIndex_].filterMap handedIndex).length = 1 := rfl
            rw [e1, e2] at this
            push_cast at this
            omega
        · have := ih s _ g' (by exact hcap) h
          simp only [handedLog, List.filterMap_append, List.length_append] at this ⊢
          have e1 : ([Event.claimed g.currentTaskIndex_].filterMap handedIndex).length = 0 := rfl
          rw [e1] at this
          push_cast at this
          omega
    · simp only [Option.some.injEq] at h
      subst h
      simp [handedLog, handedIndex, List.filterMap_append]

/-- What the initial distribution of `executeImpl` does under a cap `k > 0`,
with a queueing dispatcher: from any state it hands at most `max 1 (k - 1)`
handles, and on a fresh group of `N ≥ 1` tasks it hands exactly the first
`min (max 1 (k - 1)) (N - 1)` handles after task 0; for `k ≥ 2` this is
`min (k - 1) (N - 1)`. -/
theorem initial_distribution_burst (hs : List task_handle) (k : Int) (hk : 0 < k)
    (hN : 1 ≤ hs.length) (hfresh : ∀ h ∈ hs, h.state = GrabState.notGrabbed) :
    (∀ (g g' : parallel_group) (n fuel : Nat), g.maxSimultaneousTasks_ = k →
      distributeLoop queueingAdd n fuel 0 g = some g' →
      ((handedLog g').length : Int) ≤ (handedLog g).length + max 1 (k - 1)) ∧
    (∃ g1, distributeLoop queueingAdd hs.length (hs.length + 1) 0
        (addTasks hs (make_parallel_group k)) = some g1 ∧
      handedLog g1 = List.range' 1 (min (initialBurst k) (hs.length - 1))) ∧
    (2 ≤ k → (initialBurst k : Int) = k - 1) := by
  refine ⟨fun g g' n fuel hcap h => ?_, ?_, fun h2 => ?_⟩
  · have := distributeLoop_hand_bound k hk n fuel 0 g g' hcap h
    simpa using this
  · rw [fresh_group hs k hfresh, distributeLoop_capped hs k hk hN _ rfl rfl rfl]
    by_cases hA : hs.length - 1 < initialBurst k
    · rw [if_pos hA]
      refine ⟨_, rfl, ?_⟩
      have hm : min (initialBurst k) (hs.length - 1) = hs.length - 1 := by omega
      simp [handedLog, handMany, List.filterMap_append, handed_queuedHands, handedIndex, hm]
    · rw [if_neg hA]
      refine ⟨_, rfl, ?_⟩
      have hm : min (initialBurst k) (hs.length - 1) = initialBurst k := by omega
      rw [handedLog_handMany, hm]
      simp [handedLog]
  · unfold initialBurst
    omega

theorem initial_distribution_burst_witness :
    (∃ g1, distributeLoop queueingAdd tenHandles.length (tenHandles.length + 1) 0
        (addTasks tenHandles (make_parallel_group 3)) = some g1 ∧
      handedLog g1 = List.range' 1 (min (initialBurst 3) (tenHandles.length - 1))) ∧
    List.range' 1 (min (initialBurst 3) (tenHandles.length - 1)) = [1, 2] :=
  ⟨(initial_distribution_burst tenHandles 3 (by decide) (by decide) (by decide)).2.1, by decide⟩

/-! ## Further claims settled on the sequential embedding -/

/-- C11 fails on the code for the cap 1: on a fresh group of two tasks with
`maxSimultaneousTasks_ = 1` and a queueing dispatcher, the distribution loop of
`executeImpl` hands the handle at index 1 to the dispatcher, one handle where
`k - 1 = 0` are allowed, because the cap is tested only after
`dispatcher_.add`; `executeImpl` then runs task 0, so it has started two
tasks. -/
theorem cap_one_hands_one :
    (distributeLoop queueingAdd 2 3 0 (addTasks twoHandles (make_parallel_group 1))).map
      handedLog = some [1] ∧
    (executeImpl queueingAdd (addTasks twoHandles (make_parallel_group 1))).map
      (fun g => (g.trace, g.queue)) =
      some ([Event.claimed 1, Event.handed 1, Event.ran 0, Event.claimed 2], [1]) := by
  decide

/-- C12 (refill step), with a queueing dispatcher. When `oneTaskDone` reads an
active count other than 1 and the cap is positive, it hands exactly one handle
to the dispatcher, the one at the lowest index `i` from the cursor on whose
handle is neither grabbed nor done, after claiming the indices from the cursor
up to `i`, and leaves the cursor at `i + 1`; when there is no such index below
`N` it hands nothing and leaves the cursor past `N`. When the cap is not
positive, or the count read is 1, the dispatcher is not called (whatever the
dispatcher) and the cursor is untouched. In every case the call returns and
the active count has dropped by exactly 1. -/
theorem refill_step (g : parallel_group) (add : Dispatcher) :
    (∀ i, g.activeTasksCount_ ≠ 1 → 0 < g.maxSimultaneousTasks_ →
      g.currentTaskIndex_ ≤ i → i < g.tasks_.length → freeAt g.tasks_ i = true →
      (∀ j, g.currentTaskIndex_ ≤ j → j < i → freeAt g.tasks_ j = false) →
      oneTaskDone queueingAdd g =
        some { g with activeTasksCount_ := g.activeTasksCount_ - 1,
                      currentTaskIndex_ := i + 1,
                      queue := g.queue ++ [i],
                      trace := g.trace ++
                        (List.range' g.currentTaskIndex_ (i + 1 - g.currentTaskIndex_)).map
                          Event.claimed ++ [Event.handed i] }) ∧
    (g.activeTasksCount_ ≠ 1 → 0 < g.maxSimultaneousTasks_ →
      (∀ j, g.currentTaskIndex_ ≤ j → j < g.tasks_.length → freeAt g.tasks_ j = false) →
      oneTaskDone queueingAdd g =
        some { g with activeTasksCount_ := g.activeTasksCount_ - 1,
                      currentTaskIndex_ := max g.currentTaskIndex_ g.tasks_.length + 1,
                      trace := g.trace ++
                        (List.range' g.currentTaskIndex_
                          (max g.currentTaskIndex_ g.tasks_.length + 1 - g.currentTaskIndex_)).map
                          Event.claimed }) ∧
    (g.activeTasksCount_ ≠ 1 → ¬ 0 < g.maxSimultaneousTasks_ →
      oneTaskDone add g = some { g with activeTasksCount_ := g.activeTasksCount_ - 1 }) ∧
    (g.activeTasksCount_ = 1 →
      oneTaskDone add g =
        some { g with activeTasksCount_ := 0, trace := g.trace ++ [Event.notified] }) ∧
    (∃ g', oneTaskDone queueingAdd g = some g' ∧
      g'.activeTasksCount_ = g.activeTasksCount_ - 1) := by
  refine ⟨fun i h1 hk hci hi hfree hlow => oneTaskDone_refill_hand g i h1 hk hci hi hfree hlow,
    fun h1 hk hnone => oneTaskDone_refill_none g h1 hk hnone,
    fun h1 hk => oneTaskDone_unbounded add g h1 hk,
    fun h1 => oneTaskDone_last add g h1, ?_⟩
  obtain ⟨g', e, _, a, _⟩ := oneTaskDone_queueing g
  exact ⟨g', e, a⟩

theorem refill_step_witness :
    oneTaskDone queueingAdd mixedCapped =
      some { mixedCapped with activeTasksCount_ := 2, currentTaskIndex_ := 3, queue := [2],
                              trace := [Event.claimed 1, Event.claimed 2, Event.handed 2] } ∧
    oneTaskDone queueingAdd mixedGroup = some { mixedGroup with activeTasksCount_ := 2 } :=
  ⟨(refill_step mixedCapped queueingAdd).1 2 (by decide) (by decide) (by decide) (by decide)
      (by decide) (fun j h1 h2 => by
        have hj : j = 1 := by
          have : mixedCapped.currentTaskIndex_ = 1 := rfl
          omega
        subst hj; rfl),
    (refill_step mixedGroup queueingAdd).2.2.1 (by decide) (by decide)⟩

/-- C15 (single-threaded debug path): when the group's own `tryGrab` succeeds
(the group is not grabbed yet) and the group holds `N ≥ 1` tasks,
`executeSingleThreadedImpl` returns after calling `executeSingleThreaded` on
every task exactly once, in the order `0 .. N-1` (the failed `oqpi_check` is
recorded first when the active count differs from `N`); it hands nothing to
the dispatcher, leaves the cursor, the active count and the cap as they were,
and leaves the task sequence empty. When the group's `tryGrab` fails it
returns with the state unchanged: no task runs and the task sequence is kept. -/
theorem single_threaded_path (g : parallel_group) :
    (g.groupGrabbed = false → 1 ≤ g.tasks_.length →
      executeSingleThreadedImpl g =
        some { g with
          tasks_ := [],
          groupGrabbed := true,
          trace := g.trace ++
            (if (g.tasks_.length : Int) = g.activeTasksCount_ then [] else [Event.checkFailed]) ++
            (List.range' 0 g.tasks_.length).map Event.ranSingleThreaded }) ∧
    (g.groupGrabbed = true → executeSingleThreadedImpl g = some g) := by
  constructor
  · intro hg hN
    unfold executeSingleThreadedImpl tryGrabGroup
    simp only [hg, Bool.false_eq_true, if_false, gt_iff_lt,
      Nat.lt_of_lt_of_le Nat.zero_lt_one hN, if_true]
    by_cases hc : (g.tasks_.length : Int) = g.activeTasksCount_
    · simp only [hc, if_true]
      rw [singleThreadedLoop_runs _ 0 _ (by simp)]
      simp
    · simp only [hc, if_false]
      rw [singleThreadedLoop_runs _ 0 _ (by simp)]
  · intro hg
    simp [executeSingleThreadedImpl, tryGrabGroup, hg]

theorem single_threaded_path_witness :
    executeSingleThreadedImpl (addTasks threeHandles (make_parallel_group 0)) =
      some { addTasks threeHandles (make_parallel_group 0) with
        tasks_ := [], groupGrabbed := true,
        trace := [Event.ranSingleThreaded 0, Event.ranSingleThreaded 1,
                  Event.ranSingleThreaded 2] } ∧
    executeSingleThreadedImpl
        { addTasks threeHandles (make_parallel_group 0) with groupGrabbed := true } =
      some { addTasks threeHandles (make_parallel_group 0) with groupGrabbed := true } :=
  ⟨(single_threaded_path (addTasks threeHandles (make_parallel_group 0))).1 rfl (by decide),
    (single_threaded_path
      { addTasks threeHandles (make_parallel_group 0) with groupGrabbed := true }).2 rfl⟩

set_option linter.unusedTactic false
set_option linter.unreachableTactic false

theorem countP_set_add {α : Type} (p : α → Bool) (l : List α) (t : Nat) (a b : α)
    (h : l[t]? = some a) :
    (l.set t b).countP p + (if p a then 1 else 0) = l.countP p + (if p b then 1 else 0) := by
  induction l generalizing t with
  | nil => simp at h
  | cons x xs ih =>
    cases t with
    | zero =>
      simp only [List.getElem?_cons_zero, Option.some.injEq] at h
      subst h
      simp only [List.set_cons_zero, List.countP_cons]
      omega
    | succ t =>
      simp only [List.getElem?_cons_succ] at h
      have := ih t h
      simp only [List.set_cons_succ, List.countP_cons]
      omega

theorem step_of_pc {t p : Nat} {s : System} {pc : Pc} (h : s.threads[t]? = some pc) :
    step t p s =
      { group := (action p s.group pc).1, threads := s.threads.set t (action p s.group pc).2 } := by
  simp [step, h]

theorem step_of_none {t p : Nat} {s : System} (h : s.threads[t]? = none) : step t p s = s := by
  simp [step, h]

/-- Counting the threads at some kind of program counter, before and after a step. -/
theorem countP_step (q : Pc → Bool) {t p : Nat} {s : System} {pc : Pc}
    (h : s.threads[t]? = some pc) :
    (step t p s).threads.countP q + (if q pc then 1 else 0) =
      s.threads.countP q + (if q (action p s.group pc).2 then 1 else 0) := by
  rw [step_of_pc h]
  exact countP_set_add q s.threads t pc _ h

theorem stateAt_set (g : parallel_group) (i j : Nat) (h h' : task_handle)
    (hi : g.tasks_[i]? = some h) :
    stateAt { g with tasks_ := g.tasks_.set i h' } j =
      if i = j then some h'.state else stateAt g j := by
  have hlt : i < g.tasks_.length := by
    by_contra hc
    simp [List.getElem?_eq_none (Nat.le_of_not_lt hc)] at hi
  simp only [stateAt, List.getElem?_set, hlt, if_true]
  split_ifs <;> rfl

theorem Owned_grabStep (s : System) (t p j : Nat) (pc : Pc) (c : Caller) (lost : Pc)
    (h : Owned s) (hth : s.threads[t]? = some pc)
    (hact : action p s.group pc = grabStep s.group j (Pc.runBody c j) lost)
    (hpc : ∀ i, Pc.atBody i pc = false ∧ Pc.atSetDone i pc = false)
    (hlost : ∀ i, Pc.atBody i lost = false ∧ Pc.atSetDone i lost = false) :
    Owned (step t p s) := by
  intro i
  have hB := countP_step (Pc.atBody i) (p := p) hth
  have hD := countP_step (Pc.atSetDone i) (p := p) hth
  obtain ⟨h1, h2⟩ := h i
  rw [step_of_pc hth] at hB hD ⊢
  simp only [hact, (hpc i).1, (hpc i).2] at hB hD ⊢
  unfold grabStep at hB hD ⊢
  cases hj : s.group.tasks_[j]? with
  | none =>
    simp only [hj, (hlost i).1, (hlost i).2] at hB hD ⊢
    simp only [Bool.false_eq_true, if_false, Nat.add_zero] at hB hD
    rw [hB, hD]; exact ⟨h1, h2⟩
  | some hd =>
    simp only [hj] at hB hD ⊢
    by_cases hs : hd.state = GrabState.notGrabbed
    · have hg : (tryGrab hd).1 = true := by simp [tryGrab, hs]
      have hg2 : (tryGrab hd).2.state = GrabState.grabbed := by simp [tryGrab, hs]
      simp only [hg, if_true, Pc.atBody, Pc.atSetDone, Bool.false_eq_true, if_false,
        Nat.add_zero, beq_iff_eq] at hB hD ⊢
      rw [stateAt_set _ _ _ _ _ hj, hg2]
      have hrc : runCount i { s.group with tasks_ := s.group.tasks_.set j (tryGrab hd).2 } =
          runCount i s.group := rfl
      rw [hrc]
      by_cases hji : j = i
      · subst hji
        have hst : stateAt s.group j = some GrabState.notGrabbed := by simp [stateAt, hj, hs]
        simp only [hst, if_true, Option.some.injEq, reduceCtorEq, if_false] at h1 h2 hB hD ⊢
        omega
      · simp only [hji, if_false] at hB hD ⊢
        omega
    · have hg : (tryGrab hd).1 = false := by simp [tryGrab, hs]
      simp only [hg, Bool.false_eq_true, if_false, (hlost i).1, (hlost i).2, Nat.add_zero]
        at hB hD ⊢
      rw [hB, hD]; exact ⟨h1, h2⟩

theorem Owned_frame (s : System) (t p : Nat) (pc : Pc)
    (h : Owned s) (hth : s.threads[t]? = some pc)
    (htasks : (action p s.group pc).1.tasks_ = s.group.tasks_)
    (hruns : ∀ i, runCount i (action p s.group pc).1 = runCount i s.group)
    (hpc : ∀ i, Pc.atBody i pc = false ∧ Pc.atSetDone i pc = false)
    (hpc' : ∀ i, Pc.atBody i (action p s.group pc).2 = false ∧
      Pc.atSetDone i (action p s.group pc).2 = false) :
    Owned (step t p s) := by
  intro i
  have hB := countP_step (Pc.atBody i) (p := p) hth
  have hD := countP_step (Pc.atSetDone i) (p := p) hth
  obtain ⟨h1, h2⟩ := h i
  simp only [(hpc i).1, (hpc i).2, (hpc' i).1, (hpc' i).2] at hB hD
  have hst : stateAt (step t p s).group i = stateAt s.group i := by
    rw [step_of_pc hth]
    simp only [stateAt, htasks]
  have hrc : runCount i (step t p s).group = runCount i s.group := by
    rw [step_of_pc hth]; exact hruns i
  rw [hst, hrc]
  omega

theorem resume_atBody (c : Caller) (i : Nat) : Pc.atBody i c.resume = false := by
  cases c <;> rfl

theorem resume_atSetDone (c : Caller) (i : Nat) : Pc.atSetDone i c.resume = false := by
  cases c <;> rfl

theorem Owned_step (s : System) (t p : Nat) (h : Owned s) : Owned (step t p s) := by
  cases hth : s.threads[t]? with
  | none => rw [step_of_none hth]; exact h
  | some pc =>
    cases pc
    case grabZero =>
      exact Owned_grabStep s t p 0 _ Caller.trigger Pc.finished h hth rfl
        (fun _ => ⟨rfl, rfl⟩) (fun _ => ⟨rfl, rfl⟩)
    case workerGrab j =>
      exact Owned_grabStep s t p j _ Caller.worker Pc.workerIdle h hth rfl
        (fun _ => ⟨rfl, rfl⟩) (fun _ => ⟨rfl, rfl⟩)
    case waitScan j =>
      by_cases hj : j < s.group.tasks_.length
      · exact Owned_grabStep s t p j _ (Caller.waiter j) (Pc.waitScan (j + 1)) h hth
          (by simp [action, hj]) (fun _ => ⟨rfl, rfl⟩) (fun _ => ⟨rfl, rfl⟩)
      · exact Owned_frame s t p _ h hth (by simp [action, hj]) (by simp [action, hj])
          (fun _ => ⟨rfl, rfl⟩) (by simp [action, hj, Pc.atBody, Pc.atSetDone])
    case runBody c j =>
      intro i
      have hB := countP_step (Pc.atBody i) (p := p) hth
      have hD := countP_step (Pc.atSetDone i) (p := p) hth
      obtain ⟨h1, h2⟩ := h i
      have hst : stateAt (step t p s).group i = stateAt s.group i := by
        rw [step_of_pc hth]; rfl
      have hrc : runCount i (step t p s).group =
          runCount i s.group + (if j = i then 1 else 0) := by
        rw [step_of_pc hth]
        simp [action, runCount, List.count_append, List.count_cons]
      rw [hst, hrc]
      simp only [action, Pc.atBody, Pc.atSetDone, beq_iff_eq, Bool.false_eq_true, if_false]
        at hB hD
      by_cases hji : j = i
      · simp only [hji, if_true] at hB hD ⊢
        omega
      · simp only [hji, if_false] at hB hD ⊢
        omega
    case setDone c j =>
      cases hj : s.group.tasks_[j]? with
      | none =>
        have e : step t p s = s := by
          rw [step_of_pc hth]
          simp only [action, hj]
          cases s with
          | mk g th =>
            simp only [System.mk.injEq, true_and]
            apply List.ext_getElem?
            intro n
            rw [List.getElem?_set]
            by_cases hn : t = n
            · subst hn
              have : t < th.length := by
                by_contra hc
                simp [List.getElem?_eq_none (Nat.le_of_not_lt hc)] at hth
              simp [this, hth]
            · simp [hn]
        rw [e]; exact h
      | some hd =>
        intro i
        have hB := countP_step (Pc.atBody i) (p := p) hth
        have hD := countP_step (Pc.atSetDone i) (p := p) hth
        obtain ⟨h1, h2⟩ := h i
        have hst : stateAt (step t p s).group i =
            if j = i then some GrabState.done else stateAt s.group i := by
          rw [step_of_pc hth]
          simp only [action, hj]
          rw [stateAt_set _ _ _ _ _ hj]
        have hrc : runCount i (step t p s).group = runCount i s.group := by
          rw [step_of_pc hth]
          simp only [action, hj]
          rfl
        rw [hst, hrc]
        simp only [action, hj, Pc.atBody, Pc.atSetDone, beq_iff_eq, Bool.false_eq_true, if_false]
          at hB hD
        by_cases hji : j = i
        · simp only [hji, if_true, Option.some.injEq, reduceCtorEq, if_false] at hB hD ⊢
          by_cases hg : stateAt s.group i = some GrabState.grabbed
          · simp only [hg, if_true, Option.some.injEq, reduceCtorEq, if_false] at h1 h2
            omega
          · simp only [hg, if_false] at h1
            omega
        · simp only [hji, if_false] at hB hD ⊢
          omega
    all_goals
      apply Owned_frame s t p _ h hth
      · simp only [action, notifyGroupDone]
        repeat' split
        all_goals rfl
      · intro i
        simp only [action, notifyGroupDone]
        repeat' split
        all_goals simp [runCount, List.count_append]
      · exact fun _ => ⟨rfl, rfl⟩
      · intro i
        simp only [action]
        repeat' split
        all_goals first
          | exact ⟨resume_atBody _ _, resume_atSetDone _ _⟩
          | exact ⟨rfl, rfl⟩

theorem doneCount_le (g : parallel_group) : doneCount g ≤ g.tasks_.length :=
  List.countP_le_length _

theorem resume_atFetchSub (c : Caller) : Pc.atFetchSub c.resume = false := by
  cases c <;> rfl

theorem resume_atNotify (c : Caller) : Pc.atNotify c.resume = false := by
  cases c <;> rfl

theorem Accounted_frame (s : System) (t p : Nat) (pc : Pc)
    (h : Accounted s) (hth : s.threads[t]? = some pc)
    (htasks : (action p s.group pc).1.tasks_ = s.group.tasks_)
    (hact : (action p s.group pc).1.activeTasksCount_ = s.group.activeTasksCount_)
    (hnot : notifyCount (action p s.group pc).1 = notifyCount s.group)
    (hpc : Pc.atFetchSub pc = false ∧ Pc.atNotify pc = false)
    (hpc' : Pc.atFetchSub (action p s.group pc).2 = false ∧
      Pc.atNotify (action p s.group pc).2 = false) :
    Accounted (step t p s) := by
  have hF := countP_step Pc.atFetchSub (p := p) hth
  have hN := countP_step Pc.atNotify (p := p) hth
  simp only [hpc.1, hpc.2, hpc'.1, hpc'.2] at hF hN
  obtain ⟨h1, h2⟩ := h
  have hg : (step t p s).group = (action p s.group pc).1 := by rw [step_of_pc hth]
  unfold Accounted
  rw [hg]
  simp only [doneCount, htasks, hact, hnot] at h1 h2 ⊢
  refine ⟨by omega, fun hj => h2 ?_⟩
  rcases hj with hj | hj
  · exact Or.inl hj
  · exact Or.inr (by omega)

theorem Accounted_grabStep (s : System) (t p j : Nat) (pc : Pc) (c : Caller) (lost : Pc)
    (h : Accounted s) (hth : s.threads[t]? = some pc)
    (hact : action p s.group pc = grabStep s.group j (Pc.runBody c j) lost)
    (hpc : Pc.atFetchSub pc = false ∧ Pc.atNotify pc = false)
    (hlost : Pc.atFetchSub lost = false ∧ Pc.atNotify lost = false) :
    Accounted (step t p s) := by
  unfold grabStep at hact
  cases hj : s.group.tasks_[j]? with
  | none =>
    simp only [hj] at hact
    exact Accounted_frame s t p pc h hth (by rw [hact]) (by rw [hact]) (by rw [hact]) hpc
      (by rw [hact]; exact hlost)
  | some hd =>
    simp only [hj] at hact
    by_cases hs : hd.state = GrabState.notGrabbed
    · have hg : (tryGrab hd).1 = true := by simp [tryGrab, hs]
      have hg2 : (tryGrab hd).2.state = GrabState.grabbed := by simp [tryGrab, hs]
      simp only [hg, if_true] at hact
      have hF := countP_step Pc.atFetchSub (p := p) hth
      have hN := countP_step Pc.atNotify (p := p) hth
      have e1 : Pc.atFetchSub (Pc.runBody c j) = false := rfl
      have e2 : Pc.atNotify (Pc.runBody c j) = false := rfl
      simp only [hact, hpc.1, hpc.2, e1, e2] at hF hN
      obtain ⟨h1, h2⟩ := h
      have hgr : (step t p s).group =
          { s.group with tasks_ := s.group.tasks_.set j (tryGrab hd).2 } := by
        rw [step_of_pc hth, hact]
      have hD : doneCount (step t p s).group = doneCount s.group := by
        rw [hgr]
        have := countP_set_add (fun h : task_handle => h.state == GrabState.done)
          s.group.tasks_ j hd (tryGrab hd).2 hj
        simp only [hs, hg2, beq_iff_eq, reduceCtorEq, if_false, Nat.add_zero] at this
        exact this
      have hL : (step t p s).group.tasks_.length = s.group.tasks_.length := by
        rw [hgr]; simp
      have hA : (step t p s).group.activeTasksCount_ = s.group.activeTasksCount_ := by
        rw [hgr]
      have hNc : notifyCount (step t p s).group = notifyCount s.group := by
        rw [hgr]; rfl
      unfold Accounted
      rw [hD, hL, hA, hNc]
      refine ⟨by omega, fun hj => h2 ?_⟩
      rcases hj with hj | hj
      · exact Or.inl hj
      · exact Or.inr (by omega)
    · have hg : (tryGrab hd).1 = false := by simp [tryGrab, hs]
      simp only [hg, Bool.false_eq_true, if_false] at hact
      exact Accounted_frame s t p pc h hth (by rw [hact]) (by rw [hact]) (by rw [hact]) hpc
        (by rw [hact]; exact hlost)

theorem countP_pos_of_getElem? {α : Type} (q : α → Bool) (l : List α) (t : Nat) (a : α)
    (h : l[t]? = some a) (ha : q a = true) : 0 < l.countP q := by
  rw [List.countP_pos_iff]
  exact ⟨a, List.getElem?_mem h, ha⟩

theorem step_idle (s : System) (t p : Nat) (pc : Pc) (hth : s.threads[t]? = some pc)
    (h : action p s.group pc = (s.group, pc)) : step t p s = s := by
  rw [step_of_pc hth, h]
  cases s with
  | mk g th =>
    simp only [System.mk.injEq, true_and]
    apply List.ext_getElem?
    intro n
    rw [List.getElem?_set]
    by_cases hn : t = n
    · subst hn
      have : t < th.length := by
        by_contra hc
        simp [List.getElem?_eq_none (Nat.le_of_not_lt hc)] at hth
      simp [this, hth]
    · simp [hn]

theorem Accounted_step (s : System) (t p : Nat) (ho : Owned s) (h : Accounted s) :
    Accounted (step t p s) := by
  cases hth : s.threads[t]? with
  | none => rw [step_of_none hth]; exact h
  | some pc =>
    cases pc
    case grabZero =>
      exact Accounted_grabStep s t p 0 _ Caller.trigger Pc.finished h hth rfl
        ⟨rfl, rfl⟩ ⟨rfl, rfl⟩
    case workerGrab j =>
      exact Accounted_grabStep s t p j _ Caller.worker Pc.workerIdle h hth rfl
        ⟨rfl, rfl⟩ ⟨rfl, rfl⟩
    case waitScan j =>
      by_cases hj : j < s.group.tasks_.length
      · exact Accounted_grabStep s t p j _ (Caller.waiter j) (Pc.waitScan (j + 1)) h hth
          (by simp [action, hj]) ⟨rfl, rfl⟩ ⟨rfl, rfl⟩
      · exact Accounted_frame s t p _ h hth (by simp [action, hj]) (by simp [action, hj])
          (by simp [action, hj]) ⟨rfl, rfl⟩ (by simp [action, hj, Pc.atFetchSub, Pc.atNotify])
    case setDone c j =>
      cases hj : s.group.tasks_[j]? with
      | none =>
        rw [step_idle s t p _ hth (by simp [action, hj])]; exact h
      | some hd =>
        have hpos := countP_pos_of_getElem? (Pc.atSetDone j) s.threads t _ hth
          (by simp [Pc.atSetDone])
        have hgrab : stateAt s.group j = some GrabState.grabbed := by
          by_contra hc
          have := (ho j).1
          rw [if_neg hc] at this
          omega
        have hs : hd.state = GrabState.grabbed := by
          simpa [stateAt, hj] using hgrab
        have hF := countP_step Pc.atFetchSub (p := p) hth
        have hN := countP_step Pc.atNotify (p := p) hth
        have e1 : Pc.atFetchSub (Pc.setDone c j) = false := rfl
        have e2 : Pc.atNotify (Pc.setDone c j) = false := rfl
        have e3 : Pc.atFetchSub (Pc.fetchSub c) = true := rfl
        have e4 : Pc.atNotify (Pc.fetchSub c) = false := rfl
        simp only [action, hj, e1, e2, e3, e4, Bool.false_eq_true, if_false, if_true] at hF hN
        have hgr : (step t p s).group =
            { s.group with tasks_ := s.group.tasks_.set j { hd with state := GrabState.done } } := by
          rw [step_of_pc hth]; simp only [action, hj]
        have hD : doneCount (step t p s).group = doneCount s.group + 1 := by
          rw [hgr]
          have := countP_set_add (fun h : task_handle => h.state == GrabState.done)
            s.group.tasks_ j hd { hd with state := GrabState.done } hj
          simp only [hs, beq_iff_eq, reduceCtorEq, if_false, if_true, Nat.add_zero] at this
          exact this
        have hL : (step t p s).group.tasks_.length = s.group.tasks_.length := by
          rw [hgr]; simp
        have hA : (step t p s).group.activeTasksCount_ = s.group.activeTasksCount_ := by
          rw [hgr]
        have hNc : notifyCount (step t p s).group = notifyCount s.group := by
          rw [hgr]; rfl
        have hle := doneCount_le (step t p s).group
        obtain ⟨h1, h2⟩ := h
        unfold Accounted
        rw [hD, hL, hA, hNc] at *
        refine ⟨by omega, fun hjn => ?_⟩
        have := h2 (by rcases hjn with hjn | hjn
                       · exact Or.inl hjn
                       · exact Or.inr (by omega))
        omega
    case fetchSub c =>
      have hpos := countP_pos_of_getElem? Pc.atFetchSub s.threads t _ hth rfl
      have hF := countP_step Pc.atFetchSub (p := p) hth
      have hN := countP_step Pc.atNotify (p := p) hth
      have hgr : (step t p s).group =
          { s.group with activeTasksCount_ := s.group.activeTasksCount_ - 1 } := by
        rw [step_of_pc hth]; simp only [action]
      have hle := doneCount_le s.group
      obtain ⟨h1, h2⟩ := h
      unfold Accounted
      rw [hgr]
      simp only [doneCount, notifyCount] at h1 h2 hle ⊢
      have e1 : Pc.atFetchSub (Pc.fetchSub c) = true := rfl
      have e2 : Pc.atNotify (Pc.fetchSub c) = false := rfl
      simp only [action, e1, e2, if_true, Bool.false_eq_true, if_false] at hF hN
      by_cases hone : s.group.activeTasksCount_ = 1
      · simp only [hone, if_true] at hF hN
        have e3 : Pc.atFetchSub (Pc.notify c) = false := rfl
        simp only [e3, Bool.false_eq_true, if_false] at hF
        refine ⟨by omega, fun _ => by omega⟩
      · simp only [hone, if_false] at hF hN
        have e5 : ∀ x : Pc, x = (if s.group.maxSimultaneousTasks_ > 0 then Pc.refillClaim c
            else c.resume) → Pc.atFetchSub x = false ∧ Pc.atNotify x = false := by
          intro x hx
          subst hx
          split
          · exact ⟨rfl, rfl⟩
          · exact ⟨resume_atFetchSub c, resume_atNotify c⟩
        obtain ⟨e6, e7⟩ := e5 _ rfl
        simp only [e6, e7, Bool.false_eq_true, if_false] at hF hN
        refine ⟨by omega, fun hjn => h2 ?_⟩
        rcases hjn with hjn | hjn
        · exact Or.inl hjn
        · exact Or.inr (by omega)
    case notify c =>
      have hpos := countP_pos_of_getElem? Pc.atNotify s.threads t _ hth rfl
      have hF := countP_step Pc.atFetchSub (p := p) hth
      have e1 : Pc.atFetchSub (Pc.notify c) = false := rfl
      simp only [action, e1, resume_atFetchSub, Bool.false_eq_true, if_false] at hF
      have hgr : (step t p s).group = notifyGroupDone s.group := by
        rw [step_of_pc hth]; simp only [action]
      obtain ⟨h1, h2⟩ := h
      have hd := h2 (Or.inr hpos)
      unfold Accounted
      rw [hgr]
      simp only [doneCount, notifyGroupDone] at h1 hd ⊢
      exact ⟨by omega, fun _ => hd⟩
    all_goals
      apply Accounted_frame s t p _ h hth
      · simp only [action]
        repeat' split
        all_goals rfl
      · simp only [action]
        repeat' split
        all_goals rfl
      · simp only [action]
        repeat' split
        all_goals simp [notifyCount, List.count_append]
      · exact ⟨rfl, rfl⟩
      · simp only [action]
        repeat' split
        all_goals first
          | exact ⟨resume_atFetchSub _, resume_atNotify _⟩
          | exact ⟨rfl, rfl⟩

theorem step_length (s : System) (t p : Nat) :
    (step t p s).group.tasks_.length = s.group.tasks_.length := by
  cases hth : s.threads[t]? with
  | none => rw [step_of_none hth]
  | some pc =>
    rw [step_of_pc hth]
    cases pc
    all_goals
      simp only [action, grabStep, notifyGroupDone]
      repeat' split
      all_goals simp

theorem Sound_step (n : Nat) (s : System) (t p : Nat) (h : Sound n s) :
    Sound n (step t p s) :=
  ⟨Owned_step s t p h.1, Accounted_step s t p h.1 h.2.1, (step_length s t p).trans h.2.2⟩

theorem Sound_run (n : Nat) (sched : Schedule) (s : System) (h : Sound n s) :
    Sound n (run sched s) := by
  induction sched generalizing s with
  | nil => exact h
  | cons a rest ih =>
    obtain ⟨t, p⟩ := a
    exact ih _ (Sound_step n s t p h)

theorem countP_entry_zero (q : Pc → Bool) (threads : List Pc)
    (hentry : ∀ pc ∈ threads, pc.isEntry = true)
    (hq : ∀ pc, pc.isEntry = true → q pc = false) : threads.countP q = 0 := by
  rw [List.countP_eq_zero]
  intro pc hpc
  simp [hq pc (hentry pc hpc)]

theorem entry_cases (pc : Pc) (h : pc.isEntry = true) :
    pc = Pc.execEnter ∨ pc = Pc.waitScan 0 ∨ pc = Pc.workerIdle := by
  cases pc <;> simp [Pc.isEntry] at h ⊢
  case waitScan j =>
    cases j with
    | zero => rfl
    | succ j => simp [Pc.isEntry] at h

theorem Sound_initial (hs : List task_handle) (k : Int) (threads : List Pc)
    (hfresh : ∀ h ∈ hs, h.state = GrabState.notGrabbed)
    (hentry : ∀ pc ∈ threads, pc.isEntry = true) :
    Sound hs.length (initial hs k threads) := by
  have hg : (initial hs k threads).group =
      { tasks_ := hs, activeTasksCount_ := hs.length, maxSimultaneousTasks_ := k,
        currentTaskIndex_ := 1, groupGrabbed := false, queue := [], trace := [] } := by
    simp [initial, addTasks_spec, make_parallel_group]
  have hst : ∀ i, stateAt (initial hs k threads).group i ≠ some GrabState.grabbed ∧
      stateAt (initial hs k threads).group i ≠ some GrabState.done := by
    intro i
    rw [hg]
    simp only [stateAt]
    cases hi : hs[i]? with
    | none => simp
    | some h =>
      have := hfresh h (List.getElem?_mem hi)
      simp [this]
  have hz : ∀ q : Pc → Bool, (∀ pc, pc.isEntry = true → q pc = false) →
      (initial hs k threads).threads.countP q = 0 :=
    fun q hq => countP_entry_zero q threads hentry hq
  have hq1 : ∀ i pc, pc.isEntry = true → Pc.atBody i pc = false := by
    intro i pc h; rcases entry_cases pc h with h | h | h <;> subst h <;> rfl
  have hq2 : ∀ i pc, pc.isEntry = true → Pc.atSetDone i pc = false := by
    intro i pc h; rcases entry_cases pc h with h | h | h <;> subst h <;> rfl
  have hq3 : ∀ pc, pc.isEntry = true → Pc.atFetchSub pc = false := by
    intro pc h; rcases entry_cases pc h with h | h | h <;> subst h <;> rfl
  have hq4 : ∀ pc, pc.isEntry = true → Pc.atNotify pc = false := by
    intro pc h; rcases entry_cases pc h with h | h | h <;> subst h <;> rfl
  have hdone : doneCount (initial hs k threads).group = 0 := by
    rw [hg]
    simp only [doneCount, List.countP_eq_zero]
    intro h hh
    simp [hfresh h hh]
  refine ⟨fun i => ?_, ⟨?_, ?_⟩, by rw [hg]⟩
  · rw [hz _ (hq1 i), hz _ (hq2 i), if_neg (hst i).1, if_neg (hst i).2]
    rw [hg]
    exact ⟨rfl, rfl⟩
  · rw [hz _ hq3, hdone, hg]
  · intro hj
    rw [hz _ hq4] at hj
    rw [hg] at hj
    simp [notifyCount] at hj

/-! ### The cursor -/

theorem sum_map_set_add {α : Type} (f : α → Int) (l : List α) (t : Nat) (a b : α)
    (h : l[t]? = some a) :
    ((l.set t b).map f).sum + f a = (l.map f).sum + f b := by
  induction l generalizing t with
  | nil => simp at h
  | cons x xs ih =>
    cases t with
    | zero =>
      simp only [List.getElem?_cons_zero, Option.some.injEq] at h
      subst h
      simp only [List.set_cons_zero, List.map_cons, List.sum_cons]
      omega
    | succ t =>
      simp only [List.getElem?_cons_succ] at h
      have := ih t h
      simp only [List.set_cons_succ, List.map_cons, List.sum_cons]
      omega

theorem credit_nonneg (k : Int) (pc : Pc) (h : pc.capOK k = true) (hk : 0 ≤ k) :
    0 ≤ pc.credit k := by
  cases pc <;> simp [Pc.capOK] at h <;> simp [Pc.credit] <;> omega

theorem sum_credit_nonneg (k : Int) (hk : 0 ≤ k) (l : List Pc)
    (h : ∀ pc ∈ l, pc.capOK k = true) : 0 ≤ (l.map (Pc.credit k)).sum := by
  induction l with
  | nil => simp
  | cons x xs ih =>
    have h1 := credit_nonneg k x (h x (List.mem_cons_self _ _)) hk
    have h2 := ih (fun pc hpc => h pc (List.mem_cons_of_mem _ hpc))
    simp only [List.map_cons, List.sum_cons]
    omega

/-- A step keeps the cap invariant when the thread's new program counter is
admissible and the step does not raise the sum of queued handles, tasks in
flight and the thread's credit. -/
theorem Capped_of_delta (k : Int) (s : System) (t p : Nat) (pc : Pc)
    (h : Capped k s) (hth : s.threads[t]? = some pc)
    (hok : (action p s.group pc).2.capOK k = true)
    (hcap : (action p s.group pc).1.maxSimultaneousTasks_ = s.group.maxSimultaneousTasks_)
    (hdelta : ((action p s.group pc).1.queue.length : Int) + inFlight (action p s.group pc).1 +
        (action p s.group pc).2.credit k ≤
      (s.group.queue.length : Int) + inFlight s.group + pc.credit k) :
    Capped k (step t p s) := by
  obtain ⟨ho, hoks, hk, hphi⟩ := h
  refine ⟨Owned_step s t p ho, ?_, ?_, ?_⟩
  · rw [step_of_pc hth]
    intro x hx
    rcases List.mem_or_eq_of_mem_set hx with hx | hx
    · exact hoks x hx
    · rw [hx]; exact hok
  · rw [step_of_pc hth]; exact hcap.trans hk
  · have hsum := sum_map_set_add (Pc.credit k) s.threads t pc (action p s.group pc).2 hth
    rw [step_of_pc hth]
    simp only
    omega

theorem resume_capOK (k : Int) (c : Caller) (h : c.noWaiter = true) :
    c.resume.capOK k = true := by
  cases c <;> simp [Caller.noWaiter] at h <;> rfl

theorem resume_credit (k : Int) (c : Caller) : c.resume.credit k = 0 := by
  cases c <;> rfl

theorem grabStep_effect (g : parallel_group) (j : Nat) (won lost : Pc) :
    (grabStep g j won lost).1.queue = g.queue ∧
    (grabStep g j won lost).1.maxSimultaneousTasks_ = g.maxSimultaneousTasks_ ∧
    (((grabStep g j won lost).2 = won ∧
        inFlight (grabStep g j won lost).1 = inFlight g + 1) ∨
      ((grabStep g j won lost).2 = lost ∧ (grabStep g j won lost).1 = g)) := by
  unfold grabStep
  cases hj : g.tasks_[j]? with
  | none => exact ⟨rfl, rfl, Or.inr ⟨rfl, rfl⟩⟩
  | some hd =>
    simp only
    by_cases hs : hd.state = GrabState.notGrabbed
    · have hg : (tryGrab hd).1 = true := by simp [tryGrab, hs]
      have hg2 : (tryGrab hd).2.state = GrabState.grabbed := by simp [tryGrab, hs]
      rw [if_pos hg]
      refine ⟨rfl, rfl, Or.inl ⟨rfl, ?_⟩⟩
      have := countP_set_add (fun h : task_handle => h.state == GrabState.grabbed)
        g.tasks_ j hd (tryGrab hd).2 hj
      simp only [hs, hg2, beq_iff_eq, reduceCtorEq, if_false, if_true, Nat.add_zero] at this
      exact this
    · have hg : (tryGrab hd).1 = false := by simp [tryGrab, hs]
      rw [if_neg (by rw [hg]; simp)]
      exact ⟨rfl, rfl, Or.inr ⟨rfl, rfl⟩⟩

theorem Capped_grabStep (k : Int) (s : System) (t p j : Nat) (pc : Pc) (c : Caller) (lost : Pc)
    (h : Capped k s) (hth : s.threads[t]? = some pc)
    (hact : action p s.group pc = grabStep s.group j (Pc.runBody c j) lost)
    (hc : c.noWaiter = true) (hpc : pc.credit k = 1)
    (hlost : lost.capOK k = true ∧ lost.credit k = 0) :
    Capped k (step t p s) := by
  obtain ⟨hq, hcap, hcase⟩ := grabStep_effect s.group j (Pc.runBody c j) lost
  apply Capped_of_delta k s t p pc h hth
  · rw [hact]
    rcases hcase with ⟨h1, _⟩ | ⟨h1, _⟩
    · rw [h1]; exact hc
    · rw [h1]; exact hlost.1
  · rw [hact]; exact hcap
  · rw [hact, hq, hpc]
    rcases hcase with ⟨h1, h2⟩ | ⟨h1, h2⟩
    · rw [h1, h2]
      simp only [Pc.credit]
      push_cast
      omega
    · rw [h1, h2, hlost.2]
      omega

theorem Capped_step (k : Int) (hk : 2 ≤ k) (s : System) (t p : Nat) (h : Capped k s) :
    Capped k (step t p s) := by
  cases hth : s.threads[t]? with
  | none => rw [step_of_none hth]; exact h
  | some pc =>
    have hokpc : pc.capOK k = true := h.2.1 pc (List.getElem?_mem hth)
    have hkk : s.group.maxSimultaneousTasks_ = k := h.2.2.1
    cases pc
    case grabZero =>
      exact Capped_grabStep k s t p 0 _ Caller.trigger Pc.finished h hth rfl rfl rfl ⟨rfl, rfl⟩
    case workerGrab j =>
      exact Capped_grabStep k s t p j _ Caller.worker Pc.workerIdle h hth rfl rfl rfl ⟨rfl, rfl⟩
    case waitScan j => simp [Pc.capOK] at hokpc
    case waitJoin => simp [Pc.capOK] at hokpc
    case execEnter =>
      apply Capped_of_delta k s t p _ h hth
      · simp only [action]
        split
        · simp [Pc.capOK]; omega
        · rfl
      · simp only [action]; split <;> rfl
      · simp only [action]
        split
        · simp [Pc.credit]
        · simp only [Pc.credit, inFlight]; omega
    case distClaim sc =>
      simp only [Pc.capOK, decide_eq_true_eq] at hokpc
      apply Capped_of_delta k s t p _ h hth
      · simp only [action]
        split
        · simp [Pc.capOK]; omega
        · rfl
      · rfl
      · simp only [action]
        split
        · simp only [Pc.credit, inFlight]; omega
        · simp only [Pc.credit, inFlight]; omega
    case distIsGrabbed j sc =>
      simp only [Pc.capOK, decide_eq_true_eq] at hokpc
      apply Capped_of_delta k s t p _ h hth
      · simp only [action]
        repeat' split
        all_goals (simp [Pc.capOK]; omega)
      · simp only [action]; repeat' split
        all_goals rfl
      · simp only [action]
        repeat' split
        all_goals (simp only [Pc.credit, inFlight]; omega)
    case distIsDone j sc =>
      simp only [Pc.capOK, decide_eq_true_eq] at hokpc
      apply Capped_of_delta k s t p _ h hth
      · simp only [action]
        repeat' split
        all_goals (simp [Pc.capOK]; omega)
      · simp only [action]; repeat' split
        all_goals rfl
      · simp only [action]
        repeat' split
        all_goals (simp only [Pc.credit, inFlight]; omega)
    case distAdd j sc =>
      simp only [Pc.capOK, decide_eq_true_eq] at hokpc
      have hpos : s.group.maxSimultaneousTasks_ > 0 := by omega
      apply Capped_of_delta k s t p _ h hth
      · simp only [action, hpos, if_true]
        split
        · rfl
        · simp [Pc.capOK]; omega
      · rfl
      · simp only [action, hpos, if_true]
        split
        · simp only [Pc.credit, inFlight, List.length_append, List.length_singleton]
          push_cast; omega
        · simp only [Pc.credit, inFlight, List.length_append, List.length_singleton]
          push_cast; omega
    case runBody c j =>
      exact Capped_of_delta k s t p _ h hth hokpc rfl (by simp [action, Pc.credit, inFlight])
    case setDone c j =>
      cases hj : s.group.tasks_[j]? with
      | none => rw [step_idle s t p _ hth (by simp [action, hj])]; exact h
      | some hd =>
        have hpos := countP_pos_of_getElem? (Pc.atSetDone j) s.threads t _ hth
          (by simp [Pc.atSetDone])
        have hgrab : stateAt s.group j = some GrabState.grabbed := by
          by_contra hc
          have := (h.1 j).1
          rw [if_neg hc] at this
          omega
        have hs : hd.state = GrabState.grabbed := by
          simpa [stateAt, hj] using hgrab
        have hfl := countP_set_add (fun h : task_handle => h.state == GrabState.grabbed)
          s.group.tasks_ j hd { hd with state := GrabState.done } hj
        simp only [hs, beq_iff_eq, reduceCtorEq, if_false, if_true, Nat.add_zero] at hfl
        apply Capped_of_delta k s t p _ h hth
        · simp only [action, hj]; exact hokpc
        · simp only [action, hj]
        · simp only [action, hj, Pc.credit, inFlight]
          omega
    case fetchSub c =>
      apply Capped_of_delta k s t p _ h hth
      · simp only [action]
        repeat' split
        all_goals first
          | exact hokpc
          | exact resume_capOK k c hokpc
      · rfl
      · simp only [action]
        repeat' split
        all_goals first
          | (rw [resume_credit]; simp only [Pc.credit, inFlight]; omega)
          | (simp only [Pc.credit, inFlight]; omega)
    case notify c =>
      apply Capped_of_delta k s t p _ h hth
      · exact resume_capOK k c hokpc
      · rfl
      · simp only [action]
        rw [resume_credit]
        simp only [Pc.credit, notifyGroupDone, inFlight]
        omega
    case refillClaim c =>
      apply Capped_of_delta k s t p _ h hth
      · simp only [action]
        split
        · exact hokpc
        · exact resume_capOK k c hokpc
      · rfl
      · simp only [action]
        split
        · simp only [Pc.credit, inFlight]; omega
        · rw [resume_credit]; simp only [Pc.credit, inFlight]; omega
    case refillIsGrabbed c j =>
      apply Capped_of_delta k s t p _ h hth
      · simp only [action]
        repeat' split
        all_goals exact hokpc
      · simp only [action]; repeat' split
        all_goals rfl
      · simp only [action]
        repeat' split
        all_goals (simp only [Pc.credit, inFlight]; omega)
    case refillIsDone c j =>
      apply Capped_of_delta k s t p _ h hth
      · simp only [action]
        repeat' split
        all_goals exact hokpc
      · simp only [action]; repeat' split
        all_goals rfl
      · simp only [action]
        repeat' split
        all_goals (simp only [Pc.credit, inFlight]; omega)
    case refillAdd c j =>
      apply Capped_of_delta k s t p _ h hth
      · exact resume_capOK k c hokpc
      · rfl
      · simp only [action]
        rw [resume_credit]
        simp only [Pc.credit, inFlight, List.length_append, List.length_singleton]
        push_cast; omega
    case workerIdle =>
      cases hq : s.group.queue[p]? with
      | none => rw [step_idle s t p _ hth (by simp [action, hq])]; exact h
      | some i =>
        have hlt : p < s.group.queue.length := by
          by_contra hc
          simp [List.getElem?_eq_none (Nat.le_of_not_lt hc)] at hq
        apply Capped_of_delta k s t p _ h hth
        · simp only [action, hq]; rfl
        · simp only [action, hq]
        · simp only [action, hq, Pc.credit, inFlight, List.length_eraseIdx, hlt, if_true]
          omega
    case finished =>
      exact Capped_of_delta k s t p _ h hth rfl rfl (by simp [action])

theorem Capped_run (k : Int) (hk : 2 ≤ k) (sched : Schedule) (s : System) (h : Capped k s) :
    Capped k (run sched s) := by
  induction sched generalizing s with
  | nil => exact h
  | cons a rest ih =>
    obtain ⟨t, p⟩ := a
    exact ih _ (Capped_step k hk s t p h)

theorem Capped_initial (hs : List task_handle) (k : Int) (w : Nat)
    (hfresh : ∀ h ∈ hs, h.state = GrabState.notGrabbed) :
    Capped k (initial hs k (Pc.execEnter :: List.replicate w Pc.workerIdle)) := by
  have hentry : ∀ pc ∈ Pc.execEnter :: List.replicate w Pc.workerIdle, pc.isEntry = true := by
    intro pc hpc
    rcases List.mem_cons.mp hpc with h | h
    · rw [h]; rfl
    · rw [(List.mem_replicate.mp h).2]; rfl
  have hg : (initial hs k (Pc.execEnter :: List.replicate w Pc.workerIdle)).group =
      { tasks_ := hs, activeTasksCount_ := hs.length, maxSimultaneousTasks_ := k,
        currentTaskIndex_ := 1, groupGrabbed := false, queue := [], trace := [] } := by
    simp [initial, addTasks_spec, make_parallel_group]
  refine ⟨(Sound_initial hs k _ hfresh hentry).1, ?_, by rw [hg], ?_⟩
  · intro pc hpc
    rcases List.mem_cons.mp hpc with h | h
    · rw [h]; rfl
    · rw [(List.mem_replicate.mp h).2]; rfl
  · have hfl : inFlight (initial hs k (Pc.execEnter :: List.replicate w Pc.workerIdle)).group = 0 := by
      rw [hg]
      simp only [inFlight, List.countP_eq_zero]
      intro h hh
      simp [hfresh h hh]
    have hsum : ((List.replicate w Pc.workerIdle).map (Pc.credit k)).sum = 0 := by
      induction w with
      | zero => rfl
      | succ w ih => simp [List.replicate_succ, Pc.credit, ih]
    rw [hfl, hg]
    simp only [initial, List.map_cons, List.sum_cons, hsum, Pc.credit, List.length_nil]
    omega

/-- The cap invariant holds for every cap `k ≥ 2`: in every state reached from
a freshly built group by any schedule of one thread in `executeImpl` and any
number of dispatcher workers, at most `k` tasks are grabbed and not done. -/
theorem cap_invariant_from_two (hs : List task_handle) (k : Int) (w : Nat) (sched : Schedule)
    (hk : 2 ≤ k) (hfresh : ∀ h ∈ hs, h.state = GrabState.notGrabbed) :
    (inFlight (run sched
      (initial hs k (Pc.execEnter :: List.replicate w Pc.workerIdle))).group : Int) ≤ k := by
  obtain ⟨_, hoks, _, hphi⟩ := Capped_run k hk sched _ (Capped_initial hs k w hfresh)
  have := sum_credit_nonneg k (by omega) _ hoks
  omega

theorem cap_invariant_from_two_witness :
    (2 : Int) ≤ 2 ∧ (∀ h ∈ twoHandles, h.state = GrabState.notGrabbed) ∧
    inFlight (run capOneSchedule
      (initial twoHandles 2 (Pc.execEnter :: List.replicate 1 Pc.workerIdle))).group = 2 ∧
    (inFlight (run capOneSchedule
      (initial twoHandles 2 (Pc.execEnter :: List.replicate 1 Pc.workerIdle))).group : Int) ≤ 2 :=
  ⟨by decide, by decide, by decide,
    cap_invariant_from_two twoHandles 2 1 capOneSchedule (by decide) (by decide)⟩

/-- Two different positions of a list holding elements that satisfy `q` and
`r`, where both count for `q` or `r`. -/
theorem countP_two_positions {α : Type} (q r : α → Bool) (l : List α) (t u : Nat) (a b : α)
    (hne : u ≠ t) (ha : l[t]? = some a) (hb : l[u]? = some b) (hqa : q a = true)
    (hb2 : q b = true ∨ r b = true) :
    2 ≤ l.countP q + l.countP r := by
  induction l generalizing t u with
  | nil => simp at ha
  | cons x xs ih =>
    cases t with
    | zero =>
      simp only [List.getElem?_cons_zero, Option.some.injEq] at ha
      subst ha
      cases u with
      | zero => exact absurd rfl hne
      | succ u =>
        simp only [List.getElem?_cons_succ] at hb
        rw [List.countP_cons_of_pos _ _ hqa]
        rcases hb2 with h | h
        · have := countP_pos_of_getElem? q xs u b hb h
          omega
        · have := countP_pos_of_getElem? r xs u b hb h
          rw [List.countP_cons]
          omega
    | succ t =>
      simp only [List.getElem?_cons_succ] at ha
      cases u with
      | zero =>
        simp only [List.getElem?_cons_zero, Option.some.injEq] at hb
        subst hb
        have hp := countP_pos_of_getElem? q xs t a ha hqa
        rcases hb2 with h | h
        · rw [List.countP_cons_of_pos _ _ h]
          omega
        · rw [List.countP_cons_of_pos r _ h, List.countP_cons]
          omega
      | succ u =>
        simp only [List.getElem?_cons_succ] at hb
        have := ih t u (by omega) ha hb
        rw [List.countP_cons, List.countP_cons]
        omega

/-! ## Claims settled on the interleaving embedding -/

/-- C2 (at-most-once execution): in every state reached from a freshly built
group by any schedule of any threads, each entering `executeImpl`, entering
`activeWait` or working for the dispatcher, no task body has run more than
once; and in every such state in which `notifyGroupDone` has been called (the
group has joined), the body of each of the tasks has run exactly once. -/
theorem at_most_once (hs : List task_handle) (k : Int) (threads : List Pc) (sched : Schedule)
    (hfresh : ∀ h ∈ hs, h.state = GrabState.notGrabbed)
    (hentry : ∀ pc ∈ threads, pc.isEntry = true) :
    (∀ i, runCount i (run sched (initial hs k threads)).group ≤ 1) ∧
    (0 < notifyCount (run sched (initial hs k threads)).group →
      ∀ i, i < hs.length → runCount i (run sched (initial hs k threads)).group = 1) := by
  obtain ⟨ho, ⟨_, hj⟩, hlen⟩ :=
    Sound_run hs.length sched _ (Sound_initial hs k threads hfresh hentry)
  constructor
  · intro i
    obtain ⟨h1, h2⟩ := ho i
    by_cases hg : stateAt (run sched (initial hs k threads)).group i = some GrabState.grabbed
    · rw [hg] at h1 h2
      simp only [if_true, Option.some.injEq, reduceCtorEq, if_false] at h1 h2
      omega
    · rw [if_neg hg] at h1
      split_ifs at h2 <;> omega
  · intro hn i hi
    have hd := hj (Or.inl hn)
    obtain ⟨h1, h2⟩ := ho i
    have hall := (List.countP_eq_length (p := fun h : task_handle => h.state == GrabState.done)).mp hd
    have hlt : i < (run sched (initial hs k threads)).group.tasks_.length := by omega
    have hst : stateAt (run sched (initial hs k threads)).group i = some GrabState.done := by
      simp only [stateAt, List.getElem?_eq_getElem hlt, Option.map_some', Option.some.injEq]
      simpa using hall _ (List.getElem_mem hlt)
    rw [hst] at h1 h2
    simp only [if_true, Option.some.injEq, reduceCtorEq, if_false] at h1 h2
    omega

set_option maxRecDepth 100000 in
theorem at_most_once_witness :
    (∀ h ∈ threeHandles, h.state = GrabState.notGrabbed) ∧
    (∀ pc ∈ demoThreads, pc.isEntry = true) ∧
    notifyCount (run demoSchedule (initial threeHandles 2 demoThreads)).group = 1 ∧
    ((∀ i, runCount i (run demoSchedule (initial threeHandles 2 demoThreads)).group ≤ 1) ∧
      (0 < notifyCount (run demoSchedule (initial threeHandles 2 demoThreads)).group →
        ∀ i, i < threeHandles.length →
          runCount i (run demoSchedule (initial threeHandles 2 demoThreads)).group = 1)) :=
  ⟨by decide, by decide, by decide,
    at_most_once threeHandles 2 demoThreads demoSchedule (by decide) (by decide)⟩

/-- C3 fails on the code for the cap 1: with two tasks and
`maxSimultaneousTasks_ = 1`, `executeImpl` hands the handle at index 1 to the
dispatcher before it tests the cap (`++scheduledTasks >= maxSimultaneousTasks_-1`
is tested after `dispatcher_.add`), a worker grabs it, and `executeImpl` grabs
task 0: two tasks are grabbed and not done at the same time. -/
theorem cap_one_two_in_flight :
    (initial twoHandles 1 [Pc.execEnter, Pc.workerIdle]).group.maxSimultaneousTasks_ = 1 ∧
    (run capOneSchedule (initial twoHandles 1 [Pc.execEnter, Pc.workerIdle])).group.tasks_ =
      [⟨0, GrabState.grabbed⟩, ⟨1, GrabState.grabbed⟩] ∧
    inFlight (run capOneSchedule (initial twoHandles 1 [Pc.execEnter, Pc.workerIdle])).group = 2 := by
  decide

/-- C14 (grab before execute). On the interleaving embedding: (1) a thread
enters `execute()` on the handle at index `i` only by the step in which its
`tryGrab` on that same handle returned true, which leaves the handle grabbed:
on task 0 in `executeImpl`, on task `i` in the loop of `activeWait` (or in a
dispatcher worker); (2) when `tryGrab` on a handle returns false, the thread in
`executeImpl` returns and the thread in `activeWait` goes on to the next index,
the group unchanged and `execute()` not entered; (3) in every state reached
from a freshly built group by any schedule, a thread that has entered
`execute()` on the handle at index `i` and has not run the body yet finds the
handle grabbed, and no other thread is inside `execute()` on that handle
before it is marked done. -/
theorem grab_before_execute (hs : List task_handle) (k : Int) (threads : List Pc)
    (sched : Schedule)
    (hfresh : ∀ h ∈ hs, h.state = GrabState.notGrabbed)
    (hentry : ∀ pc ∈ threads, pc.isEntry = true) :
    (∀ (p : Nat) (g : parallel_group) (pc : Pc) (c : Caller) (i : Nat),
      (action p g pc).2 = Pc.runBody c i →
      (pc = Pc.grabZero ∧ i = 0 ∧ c = Caller.trigger ∨
        pc = Pc.waitScan i ∧ c = Caller.waiter i ∨
        pc = Pc.workerGrab i ∧ c = Caller.worker) ∧
      ∃ h, g.tasks_[i]? = some h ∧ (tryGrab h).1 = true ∧
        (action p g pc).1 = { g with tasks_ := g.tasks_.set i (tryGrab h).2 } ∧
        stateAt (action p g pc).1 i = some GrabState.grabbed) ∧
    (∀ (p : Nat) (g : parallel_group) (i : Nat) (h : task_handle),
      g.tasks_[i]? = some h → (tryGrab h).1 = false →
      (i = 0 → action p g Pc.grabZero = (g, Pc.finished)) ∧
      action p g (Pc.waitScan i) = (g, Pc.waitScan (i + 1))) ∧
    (∀ (t : Nat) (c : Caller) (i : Nat),
      (run sched (initial hs k threads)).threads[t]? = some (Pc.runBody c i) →
      stateAt (run sched (initial hs k threads)).group i = some GrabState.grabbed ∧
      ∀ (u : Nat) (pc : Pc), u ≠ t →
        (run sched (initial hs k threads)).threads[u]? = some pc →
        pc.atBody i = false ∧ pc.atSetDone i = false) := by
  refine ⟨?_, ?_, ?_⟩
  · intro p g pc c i h
    have key : ∀ (j : Nat) (won lost : Pc), won = Pc.runBody c i →
        lost ≠ Pc.runBody c i → (grabStep g j won lost).2 = Pc.runBody c i → j = i →
        ∃ h, g.tasks_[i]? = some h ∧ (tryGrab h).1 = true ∧
          (grabStep g j won lost).1 = { g with tasks_ := g.tasks_.set i (tryGrab h).2 } ∧
          stateAt (grabStep g j won lost).1 i = some GrabState.grabbed := by
      intro j won lost hw hl hg hj
      subst hj
      unfold grabStep at hg ⊢
      cases hj : g.tasks_[j]? with
      | none =>
        rw [hj] at hg
        exact absurd hg hl
      | some hd =>
        rw [hj] at hg
        simp only at hg ⊢
        by_cases hgr : (tryGrab hd).1 = true
        · rw [if_pos hgr]
          refine ⟨hd, rfl, hgr, rfl, ?_⟩
          have hlt : j < g.tasks_.length := by
            rcases Nat.lt_or_ge j g.tasks_.length with h | h
            · exact h
            · rw [List.getElem?_eq_none h] at hj
              exact absurd hj (by simp)
          have hst : hd.state = GrabState.notGrabbed := by
            by_contra hne
            simp [tryGrab, hne] at hgr
          simp [stateAt, List.getElem?_set, hlt, tryGrab, hst]
        · rw [if_neg hgr] at hg
          exact absurd hg hl
    cases pc with
    | grabZero =>
      simp only [action] at h
      have hc : c = Caller.trigger ∧ i = 0 := by
        unfold grabStep at h
        split at h
        · exact absurd h (by simp)
        · split at h
          · simp only [Pc.runBody.injEq] at h
            exact ⟨h.1.symm, h.2.symm⟩
          · exact absurd h (by simp)
      obtain ⟨hc1, hc2⟩ := hc
      subst hc1
      subst hc2
      exact ⟨Or.inl ⟨rfl, rfl, rfl⟩, key 0 _ _ rfl (by simp) h rfl⟩
    | waitScan j =>
      simp only [action] at h
      by_cases hj : j < g.tasks_.length
      · rw [if_pos hj] at h
        have hc : c = Caller.waiter j ∧ i = j := by
          unfold grabStep at h
          split at h
          · exact absurd h (by simp)
          · split at h
            · simp only [Pc.runBody.injEq] at h
              exact ⟨h.1.symm, h.2.symm⟩
            · exact absurd h (by simp)
        obtain ⟨hc1, hc2⟩ := hc
        subst hc1
        subst hc2
        have ea : action p g (Pc.waitScan i) =
            grabStep g i (Pc.runBody (Caller.waiter i) i) (Pc.waitScan (i + 1)) := by
          simp only [action, if_pos hj]
        rw [ea]
        exact ⟨Or.inr (Or.inl ⟨rfl, rfl⟩), key i _ _ rfl (by simp) h rfl⟩
      · rw [if_neg hj] at h
        exact absurd h (by simp)
    | workerGrab j =>
      simp only [action] at h
      have hc : c = Caller.worker ∧ i = j := by
        unfold grabStep at h
        split at h
        · exact absurd h (by simp)
        · split at h
          · simp only [Pc.runBody.injEq] at h
            exact ⟨h.1.symm, h.2.symm⟩
          · exact absurd h (by simp)
      obtain ⟨hc1, hc2⟩ := hc
      subst hc1
      subst hc2
      exact ⟨Or.inr (Or.inr ⟨rfl, rfl⟩), key i _ _ rfl (by simp) h rfl⟩
    | execEnter =>
      simp only [action] at h
      split at h <;> exact absurd h (by simp)
    | distClaim s =>
      simp only [action] at h
      split at h <;> exact absurd h (by simp)
    | distIsGrabbed j s =>
      simp only [action] at h
      split at h
      · exact absurd h (by simp)
      · split at h <;> exact absurd h (by simp)
    | distIsDone j s =>
      simp only [action] at h
      split at h
      · exact absurd h (by simp)
      · split at h <;> exact absurd h (by simp)
    | distAdd j s =>
      simp only [action] at h
      split at h
      · split at h <;> exact absurd h (by simp)
      · exact absurd h (by simp)
    | runBody c' j => simp [action] at h
    | setDone c' j =>
      simp only [action] at h
      split at h <;> exact absurd h (by simp)
    | fetchSub c' =>
      simp only [action] at h
      split_ifs at h
      all_goals first
        | cases h
        | (cases c' <;> simp [Caller.resume] at h)
    | notify c' => cases c' <;> simp [action, Caller.resume] at h
    | refillClaim c' =>
      simp only [action] at h
      split_ifs at h
      all_goals first
        | cases h
        | (cases c' <;> simp [Caller.resume] at h)
    | refillIsGrabbed c' j =>
      simp only [action] at h
      split at h
      · exact absurd h (by simp)
      · split at h <;> exact absurd h (by simp)
    | refillIsDone c' j =>
      simp only [action] at h
      split at h
      · exact absurd h (by simp)
      · split at h <;> exact absurd h (by simp)
    | refillAdd c' j => cases c' <;> simp [action, Caller.resume] at h
    | waitJoin =>
      simp only [action] at h
      split at h <;> exact absurd h (by simp)
    | workerIdle =>
      simp only [action] at h
      split at h <;> exact absurd h (by simp)
    | finished => simp [action] at h
  · intro p g i h hi hg
    have e : ∀ won lost, grabStep g i won lost = (g, lost) := by
      intro won lost
      simp [grabStep, hi, hg]
    have hlt : i < g.tasks_.length := by
      rcases Nat.lt_or_ge i g.tasks_.length with h' | h'
      · exact h'
      · rw [List.getElem?_eq_none h'] at hi
        exact absurd hi (by simp)
    constructor
    · intro h0
      subst h0
      simp only [action]
      exact e _ _
    · simp only [action, if_pos hlt]
      exact e _ _
  · intro t c i ht
    obtain ⟨ho, _, _⟩ :=
      Sound_run hs.length sched _ (Sound_initial hs k threads hfresh hentry)
    obtain ⟨h1, _⟩ := ho i
    have hb : (Pc.runBody c i).atBody i = true := by simp [Pc.atBody]
    have hpos := countP_pos_of_getElem? (Pc.atBody i) _ t _ ht hb
    have hgr : stateAt (run sched (initial hs k threads)).group i = some GrabState.grabbed := by
      by_contra hne
      rw [if_neg hne] at h1
      omega
    refine ⟨hgr, fun u pc hu hpc => ?_⟩
    rw [if_pos hgr] at h1
    by_contra hcon
    have h2 : pc.atBody i = true ∨ pc.atSetDone i = true := by
      by_cases hA : pc.atBody i = true
      · exact Or.inl hA
      · by_cases hB : pc.atSetDone i = true
        · exact Or.inr hB
        · exact absurd ⟨by simpa using hA, by simpa using hB⟩ hcon
    have := countP_two_positions (Pc.atBody i) (Pc.atSetDone i) _ t u _ pc hu ht hpc hb h2
    omega

set_option maxRecDepth 100000 in
theorem grab_before_execute_witness :
    (∀ h ∈ threeHandles, h.state = GrabState.notGrabbed) ∧
    (∀ pc ∈ demoThreads, pc.isEntry = true) ∧
    (run grabSchedule (initial threeHandles 2 demoThreads)).threads =
      [Pc.runBody Caller.trigger 0, Pc.runBody Caller.worker 1, Pc.waitScan 0] ∧
    (stateAt (run grabSchedule (initial threeHandles 2 demoThreads)).group 0 =
        some GrabState.grabbed ∧
      ∀ (u : Nat) (pc : Pc), u ≠ 0 →
        (run grabSchedule (initial threeHandles 2 demoThreads)).threads[u]? = some pc →
        pc.atBody 0 = false ∧ pc.atSetDone 0 = false) :=
  ⟨by decide, by decide, by decide,
    (grab_before_execute threeHandles 2 demoThreads grabSchedule (by decide) (by decide)).2.2
      0 Caller.trigger 0 (by decide)⟩

end oqpi
